import Mathlib

/-!
Verification of the style-scoring core of the smartAIjournalistBot repository.

The Python sources embedded here (shallowly, over exact rational arithmetic):
  - my_framework/style_guru/model.py     (AdvancedNeuralAgent)
  - my_framework/style_guru/features.py  (text_features)
  - my_framework/style_guru/scorer.py    (statistical_score, llm_based_score,
                                          score_article, meets_threshold,
                                          score_with_verdict)
  - my_framework/agents/iterative_writer.py (IterativeWriterAgent.invoke)
  - my_framework/agents/orchestrator.py  (component-score regex extraction in
                                          rewrite_only)

Modelling conventions:
  - Python floats are modelled as `FloatVal`: an exact rational together with
    the three non-finite IEEE values (nan, +inf, -inf), with IEEE comparison
    and propagation rules.  Binary rounding is abstracted away (arithmetic is
    exact), which is the standard shallow-embedding treatment; no claim below
    depends on rounding of representable values.
  - numpy matrices are lists of rows of rationals; shape-mismatch errors that
    numpy raises are modelled with `Except`.
  - External effects (the nltk tokenizer, the weight archive on disk, the
    OPENAI_API_KEY variable, the chat model response) are supplied through
    explicit environment records, quantified over in the theorems.
-/

/-- Clamp a rational into `[lo, hi]`, the finite case of `np.clip`. -/
def clipQ (lo hi q : ℚ) : ℚ := max lo (min hi q)

/-- A Python float: either a finite (exact) rational or one of the IEEE
non-finite values. -/
inductive FloatVal where
  | finite (q : ℚ)
  | nan
  | inf
  | ninf
deriving DecidableEq, Repr

namespace FloatVal

/-- IEEE addition on the embedded floats (finite arithmetic exact). -/
def add : FloatVal → FloatVal → FloatVal
  | finite a, finite b => finite (a + b)
  | nan, _ => nan
  | _, nan => nan
  | inf, ninf => nan
  | ninf, inf => nan
  | inf, _ => inf
  | _, inf => inf
  | ninf, _ => ninf
  | _, ninf => ninf

/-- IEEE multiplication by a finite float constant, `v * c`. -/
def mulConst (c : ℚ) : FloatVal → FloatVal
  | finite q => finite (q * c)
  | nan => nan
  | inf => if 0 < c then inf else if c < 0 then ninf else nan
  | ninf => if 0 < c then ninf else if c < 0 then inf else nan

/-- IEEE `a >= b` (false whenever either side is nan). -/
def fge : FloatVal → FloatVal → Bool
  | finite a, finite b => decide (b ≤ a)
  | inf, finite _ => true
  | inf, inf => true
  | inf, ninf => true
  | finite _, ninf => true
  | ninf, ninf => true
  | _, _ => false

/-- IEEE `a > b` (false whenever either side is nan). -/
def fgt : FloatVal → FloatVal → Bool
  | finite a, finite b => decide (b < a)
  | inf, finite _ => true
  | inf, ninf => true
  | finite _, ninf => true
  | _, _ => false

/-- IEEE `a <= b`. -/
def fle (a b : FloatVal) : Bool := fge b a

def isFinite : FloatVal → Bool
  | finite _ => true
  | _ => false

/-- IEEE multiplication (nan propagates; `0 * inf` is nan). -/
def mul : FloatVal → FloatVal → FloatVal
  | finite a, finite b => finite (a * b)
  | nan, _ => nan
  | _, nan => nan
  | inf, finite b => if 0 < b then inf else if b < 0 then ninf else nan
  | finite a, inf => if 0 < a then inf else if a < 0 then ninf else nan
  | ninf, finite b => if 0 < b then ninf else if b < 0 then inf else nan
  | finite a, ninf => if 0 < a then ninf else if a < 0 then inf else nan
  | inf, inf => inf
  | inf, ninf => ninf
  | ninf, inf => ninf
  | ninf, ninf => inf

/-- Left-fold sum from `0.0`, the order numpy accumulates a 1-d dot. -/
def fsum (l : List FloatVal) : FloatVal := l.foldl add (finite 0)

/-- Elementwise `np.maximum(0, x)`: nan propagates (numpy `maximum`). -/
def max0 : FloatVal → FloatVal
  | finite q => finite (max 0 q)
  | nan => nan
  | inf => inf
  | ninf => finite 0

/-- `np.clip(x, 0, 1)` on a float: `min(max(x, 0), 1)`, so nan propagates,
`inf` clips to 1 and `-inf` to 0. -/
def clip01 : FloatVal → FloatVal
  | finite q => finite (clipQ 0 1 q)
  | nan => nan
  | inf => finite 1
  | ninf => finite 0

end FloatVal

/-! ## Matrices (numpy arrays of Python floats — entries loaded from disk
may be NaN or infinite, which the float model keeps representable) -/

abbrev Mat := List (List FloatVal)

/-- Dot product of two equal-length rows. -/
def dotF (xs ys : List FloatVal) : FloatVal :=
  FloatVal.fsum (List.zipWith FloatVal.mul xs ys)

/-- Matrix product `np.dot` for 2-d arrays: requires every row of `A` to have as many
entries as `B` has rows, and `B` to be rectangular; otherwise numpy raises,
modelled as `Except.error`. -/
def matMul (A B : Mat) : Except String Mat :=
  let n := ((B.head?).map List.length).getD 0
  if (B.all fun r => r.length = n) && (A.all fun r => r.length = B.length) then
    .ok (A.map fun row => (List.range n).map fun j =>
      dotF row (B.map fun r => r.getD j (FloatVal.finite 0)))
  else
    .error "shapes not aligned"

/-- Broadcast addition `z + b` of a matrix and a bias row, modelling the
aligned case and the scalar-bias broadcast; other shapes raise in numpy. -/
def addBias (M : Mat) (b : List FloatVal) : Except String Mat :=
  if M.all fun r => r.length = b.length then
    .ok (M.map fun r => List.zipWith FloatVal.add r b)
  else if b.length = 1 then
    .ok (M.map fun r => r.map fun x => FloatVal.add x (b.headD (FloatVal.finite 0)))
  else
    .error "operands could not be broadcast together"

/-- Elementwise rectified linear unit, `np.maximum(0, x)`. -/
def reluM (M : Mat) : Mat := M.map fun r => r.map FloatVal.max0

/-! ## model.py : AdvancedNeuralAgent -/

/-- One layer of the network.  `mw`/`mb` are the momentum accumulators the
constructor allocates; the training step never applies them and `save`/`load`
do not serialize them. -/
structure Layer where
  w : Mat
  b : List FloatVal
  mw : Mat
  mb : List FloatVal
deriving DecidableEq, Repr

structure AdvancedNeuralAgent where
  lr : ℚ
  layers : List Layer
deriving DecidableEq, Repr

namespace AdvancedNeuralAgent

/-- The forward pass: `z = a·w + b` per layer, relu on every layer except the
last, which stays linear.  With no layers the input is returned unchanged
(the Python loop body never runs). -/
def forwardLayers : List Layer → Mat → Except String Mat
  | [], a => .ok a
  | [l], a => do addBias (← matMul a l.w) l.b
  | l :: l2 :: ls, a => do
      let z ← addBias (← matMul a l.w) l.b
      forwardLayers (l2 :: ls) (reluM z)

def forward (m : AdvancedNeuralAgent) (X : Mat) : Except String Mat :=
  forwardLayers m.layers X

/-- Method `predict` is an alias for the forward pass. -/
def predict (m : AdvancedNeuralAgent) (X : Mat) : Except String Mat :=
  m.forward X

/-- The archive written by `np.savez`: entry `i` holds the pair that the keys
`w{i}` and `b{i}` map to. -/
abbrev Archive := List (Mat × List FloatVal)

/-- Method `save` writes every layer weight matrix and bias to the archive. -/
def save (m : AdvancedNeuralAgent) : Archive :=
  m.layers.map fun l => (l.w, l.b)

/-- Method `load` overwrites the weights and biases of each of the model layers
from the archive; a missing key `w{i}` raises `KeyError`, modelled by the
length guard.  Extra archive entries are ignored, momenta are untouched. -/
def load (m : AdvancedNeuralAgent) (data : Archive) : Except String AdvancedNeuralAgent :=
  if m.layers.length ≤ data.length then
    .ok { m with
          layers := (m.layers.zip data).map fun p =>
            { p.1 with w := p.2.1, b := p.2.2 } }
  else
    .error "KeyError"

end AdvancedNeuralAgent

section C9Lemmas

open AdvancedNeuralAgent

/-- The forward pass only looks at the weight and bias of each layer. -/
theorem forwardLayers_congr :
    ∀ (ls ls' : List Layer), ls.map (fun l => (l.w, l.b)) = ls'.map (fun l => (l.w, l.b)) →
      ∀ a, forwardLayers ls a = forwardLayers ls' a := by
  intro ls
  induction ls with
  | nil =>
    intro ls' h a
    cases ls' with
    | nil => rfl
    | cons x xs => simp at h
  | cons l rest ih =>
    intro ls' h a
    cases ls' with
    | nil => simp at h
    | cons l' rest' =>
      simp only [List.map_cons, List.cons.injEq, Prod.mk.injEq] at h
      obtain ⟨⟨hw, hb⟩, htl⟩ := h
      cases rest with
      | nil =>
        cases rest' with
        | nil => simp [forwardLayers, hw, hb]
        | cons y ys => simp at htl
      | cons r2 rs =>
        cases rest' with
        | nil => simp at htl
        | cons r2' rs' =>
          simp only [forwardLayers, hw, hb, bind, Except.bind]
          have hfun := ih (r2' :: rs') (by simpa using htl)
          cases matMul a l'.w with
          | error e => rfl
          | ok z0 =>
            dsimp only
            cases addBias z0 l'.b with
            | error e => rfl
            | ok z => exact hfun (reluM z)

/-- Zipping a fresh model layer list against a saved archive of the same
length reproduces exactly the saved weights and biases. -/
theorem zip_save_weights (ls2 ls : List Layer) (h : ls2.length = ls.length) :
    ((ls2.zip (ls.map fun l => (l.w, l.b))).map fun p =>
        { p.1 with w := p.2.1, b := p.2.2 : Layer }).map (fun l => (l.w, l.b))
      = ls.map fun l => (l.w, l.b) := by
  induction ls2 generalizing ls with
  | nil =>
    cases ls with
    | nil => rfl
    | cons x xs => simp at h
  | cons y ys ih =>
    cases ls with
    | nil => simp at h
    | cons x xs =>
      simp only [List.map_cons, List.zip_cons_cons]
      refine congrArg _ ?_
      exact ih xs (by simpa using h)

end C9Lemmas

/-- C9: saving a model and loading the archive into a fresh model of the same
architecture (same number of layers; the shapes get overwritten wholesale)
yields a model whose `predict` agrees with the original on every input. -/
theorem save_load_roundtrip_predict (m m2 : AdvancedNeuralAgent)
    (h : m2.layers.length = m.layers.length) (X : Mat) :
    ∃ m2', m2.load m.save = .ok m2' ∧ m2'.predict X = m.predict X := by
  refine ⟨{ m2 with
            layers := (m2.layers.zip m.save).map fun p =>
              { p.1 with w := p.2.1, b := p.2.2 } }, ?_, ?_⟩
  · unfold AdvancedNeuralAgent.load
    rw [if_pos]
    simp [AdvancedNeuralAgent.save, h]
  · unfold AdvancedNeuralAgent.predict AdvancedNeuralAgent.forward
    exact forwardLayers_congr _ _ (zip_save_weights m2.layers m.layers h) X

/-- Witness for C9 at a concrete pair of one-layer models with different
initial weights. -/
theorem save_load_roundtrip_predict_witness :
    ∃ m2', AdvancedNeuralAgent.load
        { lr := 1/100, layers := [{ w := [[FloatVal.finite 5]], b := [FloatVal.finite 7],
                                    mw := [[FloatVal.finite 0]], mb := [FloatVal.finite 0] }] }
        (AdvancedNeuralAgent.save
          { lr := 1/1000, layers := [{ w := [[FloatVal.finite 2]], b := [FloatVal.finite 3],
                                       mw := [[FloatVal.finite 0]], mb := [FloatVal.finite 0] }] })
        = .ok m2'
      ∧ m2'.predict [[FloatVal.finite 1]]
        = AdvancedNeuralAgent.predict
            { lr := 1/1000, layers := [{ w := [[FloatVal.finite 2]], b := [FloatVal.finite 3],
                                         mw := [[FloatVal.finite 0]], mb := [FloatVal.finite 0] }] }
            [[FloatVal.finite 1]] :=
  save_load_roundtrip_predict
    { lr := 1/1000, layers := [{ w := [[FloatVal.finite 2]], b := [FloatVal.finite 3],
                                 mw := [[FloatVal.finite 0]], mb := [FloatVal.finite 0] }] }
    { lr := 1/100, layers := [{ w := [[FloatVal.finite 5]], b := [FloatVal.finite 7],
                                mw := [[FloatVal.finite 0]], mb := [FloatVal.finite 0] }] }
    rfl [[FloatVal.finite 1]]

/-! ## Decimal rendering (Python format specs `.2f`, `.3f`) -/

/-- Decimal digit character for a digit below ten. -/
def digitCh (d : Nat) : Char := Char.ofNat (48 + d)

/-- Little-endian digit characters with structural fuel (the fuel, at least
the number itself, bounds the digit count). -/
def natDigitsAux : Nat → Nat → List Char
  | 0, _ => []
  | _ + 1, 0 => []
  | fuel + 1, n + 1 => digitCh ((n + 1) % 10) :: natDigitsAux fuel ((n + 1) / 10)

/-- Decimal digit characters of a natural number, most significant first. -/
def digitsOf (n : Nat) : List Char :=
  match n with
  | 0 => ['0']
  | Nat.succ m => (natDigitsAux (m + 1) (m + 1)).reverse

/-- Fixed-point rendering of a nonnegative rational to `prec` decimal places
(ties round up; binary-float rounding is abstracted to exact decimal
rounding, which agrees on every value the claims mention). -/
def fmtQnn (prec : Nat) (q : ℚ) : List Char :=
  let scaled : Nat := (Int.floor (q * (10 ^ prec : ℚ) + 1/2)).toNat
  let fdigits := digitsOf (scaled % 10 ^ prec)
  digitsOf (scaled / 10 ^ prec) ++
    ('.' :: (List.replicate (prec - fdigits.length) '0' ++ fdigits))

/-- Python `format(q, ".{prec}f")` for a finite value. -/
def fmtQ (prec : Nat) (q : ℚ) : List Char :=
  if q < 0 then '-' :: fmtQnn prec (-q) else fmtQnn prec q

/-- Python fixed-point formatting of a float value (`nan`, `inf` render as
their names, as CPython does). -/
def fmtFloat (prec : Nat) : FloatVal → List Char
  | .finite q => fmtQ prec q
  | .nan => ['n', 'a', 'n']
  | .inf => ['i', 'n', 'f']
  | .ninf => ['-', 'i', 'n', 'f']

def fmtFloatS (prec : Nat) (v : FloatVal) : String := String.mk (fmtFloat prec v)

def fmtQS (prec : Nat) (q : ℚ) : String := String.mk (fmtQ prec q)

/-! ## features.py : text_features -/

/-- The external nltk tokenizer pair; either call may raise on weird text. -/
structure Tok where
  wordTok : String → Except Unit (List String)
  sentTok : String → Except Unit (List String)

/-- Accumulator pass behind `pySplit`: current word is collected reversed. -/
def pySplitAux : List Char → List Char → List String
  | [], acc => if acc = [] then [] else [String.mk acc.reverse]
  | c :: cs, acc =>
    if c.isWhitespace then
      (if acc = [] then [] else [String.mk acc.reverse]) ++ pySplitAux cs []
    else
      pySplitAux cs (c :: acc)

/-- Python `str.split()` with no separator: whitespace runs, empties dropped. -/
def pySplit (s : String) : List String := pySplitAux s.toList []

/-- Accumulator pass behind `pySplitDot`. -/
def pySplitDotAux : List Char → List Char → List String
  | [], acc => [String.mk acc.reverse]
  | c :: cs, acc =>
    if c = '.' then String.mk acc.reverse :: pySplitDotAux cs []
    else pySplitDotAux cs (c :: acc)

/-- Python `str.split(".")`: period-separated pieces, empties kept. -/
def pySplitDot (s : String) : List String := pySplitDotAux s.toList []

/-- Python falsiness of `s.strip()`: true iff every character is
whitespace. -/
def pyStripEmpty (s : String) : Bool := s.toList.all fun c => c.isWhitespace

/-- Python `str.isdigit` (ASCII digits). -/
def pyIsDigit (w : String) : Bool := !w.isEmpty && w.toList.all Char.isDigit

/-- Python `str.isupper`: at least one cased character and no lowercase one
(ASCII reading). -/
def pyIsUpper (w : String) : Bool :=
  (w.toList.any fun c => c.isUpper) && (w.toList.all fun c => !c.isLower)

def zeros5 : List ℚ := [0, 0, 0, 0, 0]

def listMeanQ (xs : List ℚ) : ℚ := xs.sum / xs.length

/-- The feature computation on the chosen word and sentence lists: word
count, mean word length, mean sentence length (re-tokenizing each sentence
with the word tokenizer — the one call sitting outside every `try`), digit
token count, upper-case token count. -/
def text_features_core (tok : Tok) (words sents : List String) : Except Unit (List ℚ) :=
  let n := words.length
  if n = 0 then .ok zeros5
  else do
    let avgLen : ℚ := listMeanQ (words.map fun w => (w.length : ℚ))
    let avgSent : ℚ ←
      if sents.isEmpty then pure 0
      else do
        let lens ← sents.mapM fun s => Except.map List.length (tok.wordTok s)
        pure (listMeanQ (lens.map fun k => (k : ℚ)))
    let numbers := (words.filter pyIsDigit).length
    let caps := (words.filter fun w => pyIsUpper w && decide (1 < w.length)).length
    .ok [(n : ℚ), avgLen, avgSent, (numbers : ℚ), (caps : ℚ)]

/-- Function `text_features` from features.py.  `input = none` models a non-string
argument.  The two top-level tokenizer calls sit inside `try`, falling back
to whitespace/period splitting; the per-sentence re-tokenization inside
`text_features_core` is outside every `try`, so a tokenizer failure there
propagates (modelled by the `Except` error). -/
def text_features (tok : Tok) (input : Option String) : Except Unit (List ℚ) :=
  match input with
  | none => .ok zeros5
  | some text =>
    if pyStripEmpty text then .ok zeros5
    else
      match tok.wordTok text, tok.sentTok text with
      | .ok w, .ok s => text_features_core tok w s
      | _, _ => text_features_core tok (pySplit text) (pySplitDot text)

/-! ## scorer.py -/

/-- The numeric and textual fields of the rubric JSON object once
`json.loads` has succeeded; `result.get` defaults (0.5 for the overall
score, 0 for components, empty lists, the fallback feedback string) are
absorbed into the field values.  Numeric JSON fields are floats — Python
json accepts `NaN` and `Infinity` literals, hence `FloatVal`. -/
structure RubricResult where
  overall_score : FloatVal
  lead_quality : FloatVal
  structure_score : FloatVal
  vocabulary_score : FloatVal
  tone_score : FloatVal
  attribution_score : FloatVal
  strengths : List String
  weaknesses : List String
  specific_feedback : String
  revision_priorities : List String
deriving Repr

/-- The external state `scorer.py` reads: the nltk tokenizer, the weight
archive at data/model_weights.npz (`none` = missing file), the
OPENAI_API_KEY variable, and the parsed chat-model response (`none` = the
model call raised or its output failed `json.loads`). -/
structure ScorerEnv where
  tok : Tok
  weightsArchive : Option AdvancedNeuralAgent.Archive
  apiKey : Option String
  llmResult : Option RubricResult

def exceptMapErr (f : ε → ε2) : Except ε α → Except ε2 α
  | .ok a => .ok a
  | .error e => .error (f e)

def zeroMat (r c : Nat) : Mat :=
  List.replicate r (List.replicate c (FloatVal.finite 0))

def zeroLayer (fanIn fanOut : Nat) : Layer :=
  { w := zeroMat fanIn fanOut, b := List.replicate fanOut (FloatVal.finite 0),
    mw := zeroMat fanIn fanOut, mb := List.replicate fanOut (FloatVal.finite 0) }

/-- The agent built by `AdvancedNeuralAgent(input_size=feats.shape[1])` with
the default hidden sizes `[64, 32]`: three layers.  Its random Xavier
initial weights never influence `statistical_score` (load overwrites every
weight and bias before the only forward pass), so they are taken as zero. -/
def freshAgent5 : AdvancedNeuralAgent :=
  { lr := 1/1000, layers := [zeroLayer 5 64, zeroLayer 64 32, zeroLayer 32 1] }

/-- The body of `statistical_score`s try block up to the raw prediction:
features, fresh agent, load persisted weights, predict, take entry [0,0].
The feature vector holds only counts and ratios of counts, hence finite
values; the loaded weights, and so the prediction, may be NaN or
infinite. -/
def statistical_score_raw (env : ScorerEnv) (text : String) : Except String FloatVal := do
  let feats ← exceptMapErr (fun _ => "feature extraction failed")
    (text_features env.tok (some text))
  let archive ← match env.weightsArchive with
    | some a => Except.ok a
    | none => Except.error "FileNotFoundError"
  let loaded ← freshAgent5.load archive
  let out ← loaded.predict [feats.map FloatVal.finite]
  let row ← match out.head? with
    | some r => Except.ok r
    | none => Except.error "IndexError"
  match row.head? with
  | some v => Except.ok v
  | none => Except.error "IndexError"

/-- The full try block: the raw prediction through `np.clip(score, 0, 1)`
(which propagates NaN rather than raising). -/
def statistical_score_attempt (env : ScorerEnv) (text : String) : Except String FloatVal :=
  Except.map FloatVal.clip01 (statistical_score_raw env text)

/-- Function `statistical_score`: any exception inside the attempt is caught and the
neutral default 0.5 returned.  A NaN prediction raises nothing, so it is
returned as is. -/
def statistical_score (env : ScorerEnv) (text : String) : FloatVal :=
  match statistical_score_attempt env text with
  | .ok v => v
  | .error _ => FloatVal.finite (1/2)

/-- Python `"  {i}. {p}"` enumeration starting from 1. -/
def enumFrom (i : Nat) : List α → List (Nat × α)
  | [] => []
  | x :: xs => (i, x) :: enumFrom (i + 1) xs

def spaces (n : Nat) : String := String.mk (List.replicate n ' ')

/-- The box-drawing banner of the feedback report (68-character rules). -/
def fbBanner : String :=
  "╔" ++ String.mk (List.replicate 66 '═') ++ "╗\n║" ++ spaces 20 ++
    "STYLE GURU FEEDBACK" ++ spaces 27 ++ "║\n╚" ++
    String.mk (List.replicate 66 '═') ++ "╝"

/-- Feedback text up to (and including) the literal "OVERALL SCORE: ". -/
def fbSeg0 : String := "\n" ++ fbBanner ++ "\n\nOVERALL SCORE: "

/-- The five component labels — shared verbatim between the feedback
formatter in scorer.py and the extraction regexes in orchestrator.py
(each regex is `<label>` followed by `\s*(\d+\.\d+)`). -/
def lblLead : String := "Lead Quality:"

def lblStructure : String := "Structure:"

def lblVocabulary : String := "Vocabulary:"

def lblTone : String := "Tone:"

def lblAttribution : String := "Attribution:"

/-- Literal feedback text between the overall score and the first
component line. -/
def fbC1a : String := "/1.00\n\nCOMPONENT SCORES:\n  "

/-- Literal feedback text between two component lines. -/
def fbC2a : String := "/1.00\n  "

/-- Literal feedback text after the last component line. -/
def fbC6 : String := "/1.00\n\nSTRENGTHS:\n"

def spLead : String := "    "

def spStructure : String := "       "

def spVocabulary : String := "      "

def spTone : String := "            "

def spAttribution : String := "     "

/-- The five component-score lines, exactly as formatted by
`llm_based_score` (label, colon, fixed spacing, two-decimal value,
"/1.00"). -/
def fbComponents (r : RubricResult) : String :=
  fbC1a ++ lblLead ++ spLead ++ fmtFloatS 2 r.lead_quality ++
  fbC2a ++ lblStructure ++ spStructure ++ fmtFloatS 2 r.structure_score ++
  fbC2a ++ lblVocabulary ++ spVocabulary ++ fmtFloatS 2 r.vocabulary_score ++
  fbC2a ++ lblTone ++ spTone ++ fmtFloatS 2 r.tone_score ++
  fbC2a ++ lblAttribution ++ spAttribution ++ fmtFloatS 2 r.attribution_score ++ fbC6

/-- Strengths, weaknesses, detailed feedback and revision priorities, plus
the closing rule, appended after the component block. -/
def fbTail (r : RubricResult) : String :=
  String.join (r.strengths.map fun s => "  ✓ " ++ s ++ "\n") ++
  "\nWEAKNESSES:\n" ++
  String.join (r.weaknesses.map fun s => "  ✗ " ++ s ++ "\n") ++
  "\nDETAILED FEEDBACK:\n" ++ r.specific_feedback ++ "\n" ++
  "\nREVISION PRIORITIES:\n" ++
  String.join ((enumFrom 1 r.revision_priorities).map fun p =>
    "  " ++ toString p.1 ++ ". " ++ p.2 ++ "\n") ++
  "\n" ++ String.mk (List.replicate 70 '═') ++ "\n"

/-- The full formatted feedback report of `llm_based_score`. -/
def formatFeedback (r : RubricResult) : String :=
  fbSeg0 ++ fmtFloatS 2 r.overall_score ++ fbComponents r ++ fbTail r

/-- Function `llm_based_score`: missing key and failed call/parse degrade to 0.5 with
a diagnostic; otherwise the reported overall score plus the formatted
report.  (The style-framework argument only shapes the prompt text, which
the embedding does not model.) -/
def llm_based_score (env : ScorerEnv) (text : String) : FloatVal × String :=
  match env.apiKey with
  | none => (FloatVal.finite (1/2), "No API key available for LLM scoring")
  | some _ =>
    match env.llmResult with
    | none => (FloatVal.finite (1/2), "LLM scoring failed: <exception>")
    | some r => (r.overall_score, formatFeedback r)

/-- Result of `score_article`, instrumented with the number of times each
sub-scorer function is entered (both are called exactly once,
unconditionally, in the source). -/
structure ScoreOutcome where
  score : FloatVal
  feedback : String
  statCalls : Nat
  llmCalls : Nat

/-- Function `score_article`: statistical score (30% weight), rubric score (70%),
combined as `stat * 0.3 + llm * 0.7` with no finiteness check, plus the
combined feedback block. -/
def score_article (env : ScorerEnv) (text : String) : ScoreOutcome :=
  let stat := statistical_score env text
  let llm := llm_based_score env text
  let combined := FloatVal.add (FloatVal.mulConst (3/10) stat)
    (FloatVal.mulConst (7/10) llm.1)
  { score := combined
    feedback :=
      "\nCOMBINED SCORE: " ++ fmtFloatS 3 combined ++ "/1.00\n  - Statistical Score: " ++
      fmtFloatS 3 stat ++ " (30% weight)\n  - LLM Score:         " ++ fmtFloatS 3 llm.1 ++
      " (70% weight)\n\n" ++ llm.2 ++ "\n"
    statCalls := 1
    llmCalls := 1 }

/-- Function `meets_threshold`: Python `score >= threshold` (false on nan). -/
def meets_threshold (score : FloatVal) (threshold : ℚ) : Bool :=
  FloatVal.fge score (FloatVal.finite threshold)

/-- The verdict dict of `score_with_verdict` (call counts carried over from
the instrumented `score_article`). -/
structure Verdict where
  score : FloatVal
  feedback : String
  passes : Bool
  threshold : ℚ
  message : String
  statCalls : Nat
  llmCalls : Nat

/-- Function `score_with_verdict`: score the article and wrap it in a verdict with
pass flag and one of two fixed messages. -/
def score_with_verdict (env : ScorerEnv) (text : String) (threshold : ℚ) : Verdict :=
  let o := score_article env text
  let p := meets_threshold o.score threshold
  { score := o.score
    feedback := o.feedback
    passes := p
    threshold := threshold
    message :=
      if p then
        "✅ ACCEPTED - Score " ++ fmtFloatS 3 o.score ++ " meets threshold " ++
          fmtQS 2 threshold
      else
        "❌ NEEDS REVISION - Score " ++ fmtFloatS 3 o.score ++ " below threshold " ++
          fmtQS 2 threshold
    statCalls := o.statCalls
    llmCalls := o.llmCalls }

/-- Python `len(text.split())`, the word count noted by the spec. -/
def wordCountPy (t : String) : Nat := (pySplit t).length

/-! ## Scorer facts -/

theorem clipQ01_bounds (s : ℚ) : 0 ≤ clipQ 0 1 s ∧ clipQ 0 1 s ≤ 1 :=
  ⟨le_max_left 0 (min 1 s), max_le zero_le_one (min_le_left 1 s)⟩

/-- Clipping yields NaN exactly on NaN, and otherwise a finite value in the
unit interval. -/
theorem clip01_cases (v : FloatVal) :
    FloatVal.clip01 v = FloatVal.nan ∨
      ∃ q, FloatVal.clip01 v = FloatVal.finite q ∧ 0 ≤ q ∧ q ≤ 1 := by
  cases v with
  | finite q => exact Or.inr ⟨clipQ 0 1 q, rfl, clipQ01_bounds q⟩
  | nan => exact Or.inl rfl
  | inf => exact Or.inr ⟨1, rfl, by norm_num⟩
  | ninf => exact Or.inr ⟨0, rfl, by norm_num⟩

/-- Every value the attempt can deliver went through the clip: it is NaN or
lands in the unit interval. -/
theorem statistical_score_attempt_cases (env : ScorerEnv) (text : String) (v : FloatVal)
    (h : statistical_score_attempt env text = .ok v) :
    v = FloatVal.nan ∨ ∃ q, v = FloatVal.finite q ∧ 0 ≤ q ∧ q ≤ 1 := by
  unfold statistical_score_attempt at h
  cases hr : statistical_score_raw env text with
  | error e =>
    rw [hr] at h
    simp only [Except.map] at h
    exact Except.noConfusion h
  | ok w =>
    rw [hr] at h
    simp only [Except.map] at h
    injection h with h
    exact h ▸ clip01_cases w

/-- The statistical scorer returns NaN or a finite value in `[0, 1]`. -/
theorem statistical_score_cases (env : ScorerEnv) (text : String) :
    statistical_score env text = FloatVal.nan ∨
      ∃ q, statistical_score env text = FloatVal.finite q ∧ 0 ≤ q ∧ q ≤ 1 := by
  unfold statistical_score
  cases hs : statistical_score_attempt env text with
  | error e => exact Or.inr ⟨1/2, rfl, by norm_num⟩
  | ok v => exact statistical_score_attempt_cases env text v hs

/-! ### Concrete environments used by witnesses and counterexamples -/

/-- A tokenizer that never raises: whitespace words, whole-text sentence. -/
def wsTok : Tok :=
  { wordTok := fun s => .ok (pySplit s), sentTok := fun s => .ok [s] }

/-- A tokenizer that always raises (e.g. missing punkt data). -/
def failTok : Tok :=
  { wordTok := fun _ => .error (), sentTok := fun _ => .error () }

/-- A rubric response with every `result.get` default in place. -/
def rubricBase : RubricResult :=
  { overall_score := FloatVal.finite (1/2)
    lead_quality := FloatVal.finite 0
    structure_score := FloatVal.finite 0
    vocabulary_score := FloatVal.finite 0
    tone_score := FloatVal.finite 0
    attribution_score := FloatVal.finite 0
    strengths := []
    weaknesses := []
    specific_feedback := "No specific feedback"
    revision_priorities := [] }

/-- Environment with no weight archive, no API key, no model response. -/
def envBare : ScorerEnv :=
  { tok := wsTok, weightsArchive := none, apiKey := none, llmResult := none }

/-- A 3-layer archive whose loaded network outputs 0.8 on every input
(zero weights throughout, final bias 4/5). -/
def archive08 : AdvancedNeuralAgent.Archive :=
  [([[FloatVal.finite 0], [FloatVal.finite 0], [FloatVal.finite 0], [FloatVal.finite 0],
     [FloatVal.finite 0]], [FloatVal.finite 0]),
   ([[FloatVal.finite 0]], [FloatVal.finite 0]),
   ([[FloatVal.finite 0]], [FloatVal.finite (4/5)])]

/-- A ten-word article. -/
def tenWords : String := "alpha beta gamma delta epsilon zeta eta theta iota kappa"

/-- Environment in which the statistical score is 0.8 and the rubric
overall score 0.2. -/
def envStat08 : ScorerEnv :=
  { tok := wsTok, weightsArchive := some archive08, apiKey := some "key"
    llmResult := some { rubricBase with overall_score := FloatVal.finite (1/5) } }

/-- Environment whose rubric response reports `overall_score: Infinity`. -/
def envLlmInf : ScorerEnv :=
  { tok := wsTok, weightsArchive := none, apiKey := some "key"
    llmResult := some { rubricBase with overall_score := FloatVal.inf } }

/-- Environment whose rubric response reports `overall_score: 5.0`. -/
def envLlm5 : ScorerEnv :=
  { tok := wsTok, weightsArchive := none, apiKey := some "key"
    llmResult := some { rubricBase with overall_score := FloatVal.finite 5 } }

/-- A 3-layer archive whose first weight matrix carries a NaN entry, as a
weight file saved after divergent training can deliver through `np.load`. -/
def archiveNaN : AdvancedNeuralAgent.Archive :=
  [([[FloatVal.nan], [FloatVal.finite 0], [FloatVal.finite 0], [FloatVal.finite 0],
     [FloatVal.finite 0]], [FloatVal.finite 0]),
   ([[FloatVal.finite 0]], [FloatVal.finite 0]),
   ([[FloatVal.finite 0]], [FloatVal.finite 0])]

/-- Environment whose weight archive carries a NaN weight. -/
def envNaNW : ScorerEnv :=
  { tok := wsTok, weightsArchive := some archiveNaN, apiKey := none, llmResult := none }

/-! ## C1 -/

unseal Rat.mul Rat.inv Rat.add in
/-- C1, counterexample.  The empty string has fewer than 10 words, yet
`score_with_verdict` does not return the fixed score 0.1: it runs the full
pipeline (both sub-scorers are entered once) and here returns 0.5.  There is
no short-text guard in scorer.py. -/
theorem C1_counterexample :
    wordCountPy "" < 10 ∧
    (score_with_verdict envBare "" (4/5)).score = FloatVal.finite (1/2) ∧
    FloatVal.finite (1/2) ≠ FloatVal.finite (1/10) ∧
    (score_with_verdict envBare "" (4/5)).statCalls = 1 ∧
    (score_with_verdict envBare "" (4/5)).llmCalls = 1 := by
  refine ⟨by decide, by decide, by decide, rfl, rfl⟩

/-- C1, amended: for every text with fewer than 10 words (as for any other
text) `score_with_verdict` enters both sub-scorers exactly once and returns
the weighted combination of their results — no short-circuit to 0.1
exists. -/
theorem C1_no_short_text_guard (env : ScorerEnv) (text : String) (threshold : ℚ)
    (h : wordCountPy text < 10) :
    (score_with_verdict env text threshold).statCalls = 1 ∧
    (score_with_verdict env text threshold).llmCalls = 1 ∧
    (score_with_verdict env text threshold).score =
      FloatVal.add (FloatVal.mulConst (3/10) (statistical_score env text))
        (FloatVal.mulConst (7/10) (llm_based_score env text).1) :=
  ⟨rfl, rfl, rfl⟩

unseal Rat.mul Rat.inv Rat.add in
/-- Witness for C1 at the empty string. -/
theorem C1_no_short_text_guard_witness :
    (score_with_verdict envBare "" (4/5)).statCalls = 1 ∧
    (score_with_verdict envBare "" (4/5)).llmCalls = 1 ∧
    (score_with_verdict envBare "" (4/5)).score =
      FloatVal.add (FloatVal.mulConst (3/10) (statistical_score envBare ""))
        (FloatVal.mulConst (7/10) (llm_based_score envBare "").1) :=
  C1_no_short_text_guard envBare "" (4/5) (by decide)

/-! ## C2 -/

unseal Rat.mul Rat.inv Rat.add in
/-- C2, counterexample.  `score_article` does not replace a non-finite
sub-score with 0.5: with the rubric scorer reporting `Infinity` on a
ten-word article the combined score is `inf`, not the
`0.3 * 0.5 + 0.7 * 0.5 = 0.5` the claim mandates. -/
theorem C2_counterexample :
    10 ≤ wordCountPy tenWords ∧
    (score_article envLlmInf tenWords).score = FloatVal.inf ∧
    FloatVal.inf ≠ FloatVal.finite ((1/2) * (3/10) + (1/2) * (7/10)) := by
  refine ⟨by decide, by decide, by decide⟩

/-- The combined score on finite sub-scores. -/
theorem score_article_weighted (env : ScorerEnv) (text : String) (s r : ℚ)
    (hs : statistical_score env text = FloatVal.finite s)
    (hr : (llm_based_score env text).1 = FloatVal.finite r) :
    (score_article env text).score =
      FloatVal.finite (s * (3/10) + r * (7/10)) := by
  unfold score_article
  simp [hs, hr, FloatVal.add, FloatVal.mulConst]

/-- C2, amended: the combined score is exactly
`statistical * 0.3 + rubric * 0.7` whenever both sub-scores are finite;
no non-finite replacement is performed. -/
theorem C2_weighted_combination (env : ScorerEnv) (text : String) (s r : ℚ)
    (hs : statistical_score env text = FloatVal.finite s)
    (hr : (llm_based_score env text).1 = FloatVal.finite r) :
    (score_article env text).score =
      FloatVal.finite (s * (3/10) + r * (7/10)) :=
  score_article_weighted env text s r hs hr

unseal Rat.mul Rat.inv Rat.add in
set_option maxRecDepth 8000 in
/-- Witness for C2: statistical 0.8 and rubric 0.2 combine to exactly
0.38. -/
theorem C2_weighted_combination_witness :
    (score_article envStat08 tenWords).score = FloatVal.finite (19/50) := by
  have h := C2_weighted_combination envStat08 tenWords (4/5) (1/5) (by decide) rfl
  rw [h]
  decide

/-! ## C5 -/

unseal Rat.mul Rat.inv Rat.add in
set_option maxRecDepth 8000 in
/-- C5, counterexample.  Neither claimed bound holds of the program: a NaN
weight in the loaded archive propagates through the forward pass and
`np.clip` without raising, so `statistical_score` returns NaN — outside
`[0, 1]` — and a rubric response with `overall_score: 5.0` drives the
verdict score to 3.65 (which then even passes the 0.8 threshold). -/
theorem C5_counterexample :
    statistical_score envNaNW tenWords = FloatVal.nan ∧
    (score_with_verdict envLlm5 "" (4/5)).score = FloatVal.finite (73/20) ∧
    ¬ ((73 : ℚ) / 20 ≤ 1) ∧
    (score_with_verdict envLlm5 "" (4/5)).passes = true := by
  refine ⟨by decide, by decide, by norm_num, by decide⟩

/-- C5, amended: the statistical score is NaN (possible only when the
loaded weights drive the network output to NaN, which `np.clip`
propagates) or a finite value in `[0, 1]`; and whenever the statistical
result is finite and the rubric scorer reports a finite overall score in
`[0, 1]`, the verdict score is a finite value in `[0, 1]` — an
out-of-range or non-finite rubric score propagates unclamped. -/
theorem C5_score_bounds (env : ScorerEnv) (text : String) (threshold : ℚ) (r : ℚ)
    (hr : (llm_based_score env text).1 = FloatVal.finite r)
    (hr0 : 0 ≤ r) (hr1 : r ≤ 1) :
    (statistical_score env text = FloatVal.nan ∨
      ∃ s, statistical_score env text = FloatVal.finite s ∧ 0 ≤ s ∧ s ≤ 1) ∧
    ∀ s, statistical_score env text = FloatVal.finite s →
      ∃ q, (score_with_verdict env text threshold).score = FloatVal.finite q ∧
        0 ≤ q ∧ q ≤ 1 := by
  refine ⟨statistical_score_cases env text, fun s hs => ?_⟩
  obtain ⟨h0, h1⟩ : 0 ≤ s ∧ s ≤ 1 := by
    rcases statistical_score_cases env text with hnan | ⟨s2, hs2, h0, h1⟩
    · rw [hs] at hnan
      exact absurd hnan (by simp)
    · rw [hs] at hs2
      injection hs2 with h
      exact h ▸ ⟨h0, h1⟩
  refine ⟨s * (3/10) + r * (7/10), ?_, ?_, ?_⟩
  · show (score_article env text).score = _
    exact score_article_weighted env text s r hs hr
  · positivity
  · have ha : s * (3/10) ≤ 3/10 := by nlinarith
    have hb : r * (7/10) ≤ 7/10 := by nlinarith
    linarith

/-- Witness for C5 in the bare environment (both sub-scores 0.5). -/
theorem C5_score_bounds_witness :
    ((statistical_score envBare "" = FloatVal.nan ∨
      ∃ s, statistical_score envBare "" = FloatVal.finite s ∧ 0 ≤ s ∧ s ≤ 1) ∧
    ∀ s, statistical_score envBare "" = FloatVal.finite s →
      ∃ q, (score_with_verdict envBare "" (4/5)).score = FloatVal.finite q ∧
        0 ≤ q ∧ q ≤ 1) :=
  C5_score_bounds envBare "" (4/5) (1/2) rfl (by norm_num) (by norm_num)

/-! ## C6 -/

/-- C6: any failure inside the statistical scorer is caught and turned into
the neutral 0.5 — in particular a missing weight archive always yields
exactly 0.5, whatever the text. -/
theorem C6_graceful_degradation (env : ScorerEnv) (text : String) :
    (∀ e, statistical_score_attempt env text = .error e →
      statistical_score env text = FloatVal.finite (1/2)) ∧
    (env.weightsArchive = none →
      statistical_score env text = FloatVal.finite (1/2)) := by
  constructor
  · intro e h
    unfold statistical_score
    rw [h]
  · intro h
    unfold statistical_score statistical_score_attempt statistical_score_raw
    cases hf : text_features env.tok (some text) with
    | error e => simp [bind, Except.bind, hf, exceptMapErr, Except.map]
    | ok v => simp [bind, Except.bind, hf, exceptMapErr, Except.map, h]

/-- Witness for C6: deleted weight file in the bare environment. -/
theorem C6_graceful_degradation_witness :
    statistical_score envBare "some article text" = FloatVal.finite (1/2) :=
  (C6_graceful_degradation envBare "some article text").2 rfl

/-! ## agents/iterative_writer.py : IterativeWriterAgent -/

/-- One entry of the loop history. -/
structure IterationRecord where
  iteration : Nat
  article : String
  score : FloatVal
  feedback : String
  passes : Bool

/-- The dict returned by a completed write-score-refine loop. -/
structure WriteResult where
  final_article : String
  score : FloatVal
  iterations : Nat
  history : List IterationRecord
  success : Bool
  message : Option String

/-- Outcome type: `invoke` returns either the bare error dict (which has none of the
`WriteResult` keys) or a full result dict. -/
inductive InvokeOutcome where
  | errorDict (msg : String)
  | result (r : WriteResult)

/-- The slice of the input dict that `invoke` reads; `none` models a missing
key. -/
structure WriterInput where
  source_content : Option String
  user_prompt : Option String

/-- The external calls the loop makes, closed over their own environments:
`write_initial source userPrompt frameworkContext`,
`refine article feedback source frameworkContext` (each one chat-model
call), and the module-level `score_with_verdict` (under some `ScorerEnv`). -/
structure WriterOracle where
  write_initial : String → String → String → String
  refine : String → String → String → String → String
  score : String → ℚ → Verdict

/-- Python `max(history, key=lambda x: x["score"])`: first element wins ties,
a later element replaces the best only when strictly greater (IEEE). -/
def pyMaxByScore : List IterationRecord → Option IterationRecord
  | [] => none
  | x :: xs =>
    some (xs.foldl (fun best y => if FloatVal.fgt y.score best.score then y else best) x)

/-- Python `input.get("source_content", "")`. -/
def inputSource (input : WriterInput) : String := input.source_content.getD ""

/-- Python `input.get("user_prompt", "Write a news article")`. -/
def inputPrompt (input : WriterInput) : String :=
  input.user_prompt.getD "Write a news article"

/-- The `for iteration in range(1, max_iterations + 1)` loop, recursing on
the remaining round count.  On exhaustion, Python evaluates
`max(h["score"] for h in history)`, which raises `ValueError` when the
history is empty (`max_iterations` < 1); then the best attempt is returned
with `success=False`. -/
def writeLoop (o : WriterOracle) (maxIterations : Nat) (threshold : ℚ)
    (source user fwctx : String) :
    Nat → Nat → String → String → List IterationRecord → Except String InvokeOutcome
  | 0, _, _, _, history =>
    match pyMaxByScore history with
    | none => .error "ValueError: max() arg is an empty sequence"
    | some best =>
      .ok (.result
        { final_article := best.article
          score := best.score
          iterations := maxIterations
          history := history
          success := false
          message := some ("Did not meet threshold after " ++ toString maxIterations ++
            " iterations. Returning best attempt.") })
  | remaining + 1, iteration, prevArticle, prevFeedback, history =>
    let article :=
      if iteration = 1 then o.write_initial source user fwctx
      else o.refine prevArticle prevFeedback source fwctx
    let verdict := o.score article threshold
    let rec1 : IterationRecord :=
      { iteration := iteration
        article := article
        score := verdict.score
        feedback := verdict.feedback
        passes := verdict.passes }
    let history2 := history ++ [rec1]
    if verdict.passes then
      .ok (.result
        { final_article := article
          score := verdict.score
          iterations := iteration
          history := history2
          success := true
          message := none })
    else
      writeLoop o maxIterations threshold source user fwctx remaining (iteration + 1)
        article verdict.feedback history2

namespace IterativeWriterAgent

/-- Method `IterativeWriterAgent.invoke`: reject empty or missing source content
with the bare error dict, otherwise run the bounded loop from iteration 1
with empty history. -/
def invoke (o : WriterOracle) (maxIterations : Nat) (threshold : ℚ) (fwctx : String)
    (input : WriterInput) : Except String InvokeOutcome :=
  if inputSource input = "" then .ok (.errorDict "No source content provided")
  else
    writeLoop o maxIterations threshold (inputSource input) (inputPrompt input) fwctx
      maxIterations 1 "" "" []

end IterativeWriterAgent

/-- The article/feedback pair produced at each iteration of the loop (the
pair entering iteration `n + 1` is the output of iteration `n`; iteration 1
drafts from scratch, later iterations refine). -/
def draftState (o : WriterOracle) (threshold : ℚ) (source user fwctx : String) :
    Nat → String × String
  | 0 => ("", "")
  | n + 1 =>
    let prev := draftState o threshold source user fwctx n
    let article :=
      if n = 0 then o.write_initial source user fwctx
      else o.refine prev.1 prev.2 source fwctx
    (article, (o.score article threshold).feedback)

/-! ## C10 -/

/-- C10: with the source-content key missing or empty, `invoke` returns the
bare error dict immediately.  The oracle (covering every chat-model call and
every scoring call) is universally quantified and the outcome does not
depend on it — nothing external is consulted — and the `errorDict`
constructor carries none of the `WriteResult` fields. -/
theorem C10_missing_source (o : WriterOracle) (maxIterations : Nat) (threshold : ℚ)
    (fwctx : String) (input : WriterInput)
    (h : input.source_content = none ∨ input.source_content = some "") :
    IterativeWriterAgent.invoke o maxIterations threshold fwctx input =
      .ok (InvokeOutcome.errorDict "No source content provided") := by
  unfold IterativeWriterAgent.invoke inputSource
  rcases h with h | h <;> rw [h] <;> rfl

/-- A constantly passing scorer stub with score 1. -/
def passOracle : WriterOracle :=
  { write_initial := fun _ _ _ => "first draft"
    refine := fun a _ _ _ => a ++ " revised"
    score := fun _ t =>
      { score := FloatVal.finite 1
        feedback := "fine"
        passes := true
        threshold := t
        message := "accepted"
        statCalls := 1
        llmCalls := 1 } }

/-- Witness for C10 with the key absent. -/
theorem C10_missing_source_witness :
    IterativeWriterAgent.invoke passOracle 5 (4/5) "" { source_content := none, user_prompt := none } =
      .ok (InvokeOutcome.errorDict "No source content provided") :=
  C10_missing_source passOracle 5 (4/5) ""
    { source_content := none, user_prompt := none } (Or.inl rfl)

/-! ## The best-attempt fold (Python max with key) -/

theorem FloatVal.isFinite_exists {v : FloatVal} (h : v.isFinite = true) :
    ∃ q, v = FloatVal.finite q := by
  cases v with
  | finite q => exact ⟨q, rfl⟩
  | nan => simp [FloatVal.isFinite] at h
  | inf => simp [FloatVal.isFinite] at h
  | ninf => simp [FloatVal.isFinite] at h

theorem FloatVal.fle_refl_finite (q : ℚ) :
    FloatVal.fle (FloatVal.finite q) (FloatVal.finite q) = true := by
  simp [FloatVal.fle, FloatVal.fge]

theorem FloatVal.fle_trans_finite (a b c : ℚ)
    (h1 : FloatVal.fle (FloatVal.finite a) (FloatVal.finite b) = true)
    (h2 : FloatVal.fle (FloatVal.finite b) (FloatVal.finite c) = true) :
    FloatVal.fle (FloatVal.finite a) (FloatVal.finite c) = true := by
  simp [FloatVal.fle, FloatVal.fge] at h1 h2 ⊢
  exact le_trans h1 h2

theorem FloatVal.fle_finite_iff (a b : ℚ) :
    (FloatVal.fle (FloatVal.finite a) (FloatVal.finite b) = true) ↔ a ≤ b := by
  simp [FloatVal.fle, FloatVal.fge]

theorem FloatVal.fgt_finite_iff (a b : ℚ) :
    (FloatVal.fgt (FloatVal.finite a) (FloatVal.finite b) = true) ↔ b < a := by
  simp [FloatVal.fgt]

/-- The fold Python `max(..., key=...)` performs over the tail. -/
def pyMaxFold (x : IterationRecord) (xs : List IterationRecord) : IterationRecord :=
  xs.foldl (fun best y => if FloatVal.fgt y.score best.score then y else best) x

theorem pyMaxByScore_cons (x : IterationRecord) (xs : List IterationRecord) :
    pyMaxByScore (x :: xs) = some (pyMaxFold x xs) := rfl

/-- Specification of the fold when every score is finite: the result is one
of the candidates and dominates them all. -/
theorem pyMaxFold_spec (xs : List IterationRecord) :
    ∀ x, x.score.isFinite = true → (∀ r ∈ xs, r.score.isFinite = true) →
      (pyMaxFold x xs = x ∨ pyMaxFold x xs ∈ xs) ∧
      FloatVal.fle x.score (pyMaxFold x xs).score = true ∧
      ∀ r ∈ xs, FloatVal.fle r.score (pyMaxFold x xs).score = true := by
  induction xs with
  | nil =>
    intro x hx _
    obtain ⟨qx, hqx⟩ := FloatVal.isFinite_exists hx
    refine ⟨Or.inl rfl, ?_, by simp⟩
    show FloatVal.fle x.score x.score = true
    rw [hqx]
    exact FloatVal.fle_refl_finite qx
  | cons y ys ih =>
    intro x hx hall
    have hy : y.score.isFinite = true := hall y (List.mem_cons_self y ys)
    have hys : ∀ r ∈ ys, r.score.isFinite = true :=
      fun r hr => hall r (List.mem_cons_of_mem _ hr)
    obtain ⟨qx, hqx⟩ := FloatVal.isFinite_exists hx
    obtain ⟨qy, hqy⟩ := FloatVal.isFinite_exists hy
    by_cases hc : FloatVal.fgt y.score x.score = true
    · have hstep : pyMaxFold x (y :: ys) = pyMaxFold y ys := by
        show pyMaxFold (if FloatVal.fgt y.score x.score then y else x) ys = _
        rw [if_pos hc]
      obtain ⟨hmem, hbase, hrest⟩ := ih y hy hys
      have hbfin : (pyMaxFold y ys).score.isFinite = true := by
        rcases hmem with hm | hm
        · rw [hm]; exact hy
        · exact hys _ hm
      obtain ⟨qb, hqb⟩ := FloatVal.isFinite_exists hbfin
      refine ⟨?_, ?_, ?_⟩
      · rw [hstep]
        rcases hmem with hm | hm
        · exact Or.inr (by rw [hm]; exact List.mem_cons_self y ys)
        · exact Or.inr (List.mem_cons_of_mem _ hm)
      · rw [hstep, hqx, hqb]
        have h1 : qx < qy := by
          rw [hqx, hqy] at hc
          exact (FloatVal.fgt_finite_iff qy qx).mp hc
        have h2 : qy ≤ qb := by
          rw [hqy, hqb] at hbase
          exact (FloatVal.fle_finite_iff qy qb).mp hbase
        exact (FloatVal.fle_finite_iff qx qb).mpr (le_of_lt (lt_of_lt_of_le h1 h2))
      · intro r hr
        rw [hstep]
        rcases List.mem_cons.mp hr with hr' | hr'
        · subst hr'; exact hbase
        · exact hrest r hr'
    · have hstep : pyMaxFold x (y :: ys) = pyMaxFold x ys := by
        show pyMaxFold (if FloatVal.fgt y.score x.score then y else x) ys = _
        rw [if_neg hc]
      obtain ⟨hmem, hbase, hrest⟩ := ih x hx hys
      have hbfin : (pyMaxFold x ys).score.isFinite = true := by
        rcases hmem with hm | hm
        · rw [hm]; exact hx
        · exact hys _ hm
      obtain ⟨qb, hqb⟩ := FloatVal.isFinite_exists hbfin
      refine ⟨?_, by rw [hstep]; exact hbase, ?_⟩
      · rw [hstep]
        rcases hmem with hm | hm
        · exact Or.inl hm
        · exact Or.inr (List.mem_cons_of_mem _ hm)
      · intro r hr
        rw [hstep]
        rcases List.mem_cons.mp hr with hr' | hr'
        · subst hr'
          have h1 : qy ≤ qx := by
            rw [hqx, hqy] at hc
            simpa [FloatVal.fgt] using hc
          have h2 : qx ≤ qb := by
            rw [hqx, hqb] at hbase
            exact (FloatVal.fle_finite_iff qx qb).mp hbase
          rw [hqy, hqb]
          exact (FloatVal.fle_finite_iff qy qb).mpr (le_trans h1 h2)
        · exact hrest r hr'

/-- Function `pyMaxByScore` on a nonempty history of finite scores picks a member
that dominates every entry. -/
theorem pyMaxByScore_spec (l : List IterationRecord) (hne : l ≠ [])
    (hfin : ∀ r ∈ l, r.score.isFinite = true) :
    ∃ best, pyMaxByScore l = some best ∧ best ∈ l ∧
      ∀ r ∈ l, FloatVal.fle r.score best.score = true := by
  cases l with
  | nil => exact absurd rfl hne
  | cons x xs =>
    obtain ⟨hmem, hbase, hrest⟩ :=
      pyMaxFold_spec xs x (hfin x (List.mem_cons_self x xs))
        (fun r hr => hfin r (List.mem_cons_of_mem _ hr))
    refine ⟨pyMaxFold x xs, pyMaxByScore_cons x xs, ?_, ?_⟩
    · rcases hmem with hm | hm
      · rw [hm]; exact List.mem_cons_self x xs
      · exact List.mem_cons_of_mem _ hm
    · intro r hr
      rcases List.mem_cons.mp hr with hr' | hr'
      · subst hr'; exact hbase
      · exact hrest r hr'

/-! ## C3 : loop exhaustion and best-attempt selection -/

/-- With a scorer that never passes, the loop burns all remaining rounds,
appending one failing record per round with consecutive iteration numbers,
and lands in the exhaustion branch. -/
theorem writeLoop_exhaust (o : WriterOracle) (maxIterations : Nat) (threshold : ℚ)
    (source user fwctx : String)
    (hfail : ∀ a, (o.score a threshold).passes = false)
    (hfin : ∀ a, (o.score a threshold).score.isFinite = true) :
    ∀ (remaining iteration : Nat) (prevA prevF : String) (history : List IterationRecord),
      ∃ recs : List IterationRecord,
        recs.length = remaining ∧
        recs.map IterationRecord.iteration = List.range' iteration remaining ∧
        (∀ r ∈ recs, r.passes = false ∧ r.score.isFinite = true) ∧
        writeLoop o maxIterations threshold source user fwctx remaining iteration prevA prevF
            history =
          writeLoop o maxIterations threshold source user fwctx 0 (iteration + remaining) "" ""
            (history ++ recs) := by
  intro remaining
  induction remaining with
  | zero =>
    intro iteration prevA prevF history
    exact ⟨[], rfl, rfl, by simp, by simp [writeLoop]⟩
  | succ r ihr =>
    intro iteration prevA prevF history
    set A := (if iteration = 1 then o.write_initial source user fwctx
      else o.refine prevA prevF source fwctx) with hA
    set rec1 : IterationRecord :=
      { iteration := iteration
        article := A
        score := (o.score A threshold).score
        feedback := (o.score A threshold).feedback
        passes := (o.score A threshold).passes } with hrec
    obtain ⟨recs, hlen, hmap, hprops, heq⟩ :=
      ihr (iteration + 1) A ((o.score A threshold).feedback) (history ++ [rec1])
    have hnp : ¬ ((o.score A threshold).passes = true) := by
      rw [hfail A]
      simp
    have hone : writeLoop o maxIterations threshold source user fwctx (r + 1) iteration prevA
        prevF history =
        writeLoop o maxIterations threshold source user fwctx r (iteration + 1) A
          ((o.score A threshold).feedback) (history ++ [rec1]) := by
      simp only [writeLoop, ← hA, ← hrec]
      rw [if_neg hnp]
    refine ⟨rec1 :: recs, by simp [hlen], ?_, ?_, ?_⟩
    · simp only [List.map_cons, hmap]
      rfl
    · intro r2 hr2
      rcases List.mem_cons.mp hr2 with hr' | hr'
      · subst hr'
        exact ⟨hfail A, hfin A⟩
      · exact hprops r2 hr'
    · rw [hone, heq]
      have hiter : iteration + 1 + r = iteration + (r + 1) := by omega
      rw [hiter, List.append_assoc, List.singleton_append]

/-- C3: when no draft ever passes, the loop runs exactly `max_iterations`
rounds and returns `success=false`, a history of exactly `max_iterations`
records numbered 1.., and the best-scoring attempt as final article. -/
theorem C3_loop_exhaustion (o : WriterOracle) (maxIterations : Nat) (threshold : ℚ)
    (fwctx : String) (input : WriterInput)
    (hsrc : ¬ inputSource input = "")
    (hmax : 1 ≤ maxIterations)
    (hfail : ∀ a, (o.score a threshold).passes = false)
    (hfin : ∀ a, (o.score a threshold).score.isFinite = true) :
    ∃ res : WriteResult,
      IterativeWriterAgent.invoke o maxIterations threshold fwctx input =
        .ok (.result res) ∧
      res.success = false ∧
      res.iterations = maxIterations ∧
      res.history.length = maxIterations ∧
      res.history.map IterationRecord.iteration = List.range' 1 maxIterations ∧
      ∃ best ∈ res.history, res.final_article = best.article ∧ res.score = best.score ∧
        ∀ r ∈ res.history, FloatVal.fle r.score best.score = true := by
  obtain ⟨recs, hlen, hmap, hprops, heq⟩ :=
    writeLoop_exhaust o maxIterations threshold (inputSource input) (inputPrompt input) fwctx
      hfail hfin maxIterations 1 "" "" []
  have hne : recs ≠ [] := by
    intro h0
    rw [h0] at hlen
    simp at hlen
    omega
  obtain ⟨best, hpm, hbm, hdom⟩ := pyMaxByScore_spec recs hne fun r hr => (hprops r hr).2
  have hinv : IterativeWriterAgent.invoke o maxIterations threshold fwctx input =
      writeLoop o maxIterations threshold (inputSource input) (inputPrompt input) fwctx
        maxIterations 1 "" "" [] := by
    unfold IterativeWriterAgent.invoke
    rw [if_neg hsrc]
  rw [hinv, heq]
  simp only [writeLoop, List.nil_append, hpm]
  exact ⟨_, rfl, rfl, rfl, hlen, hmap, best, hbm, rfl, rfl, hdom⟩

/-- Scorer stub that always fails, scoring the three drafts of a 3-round
run 0.4, 0.7, 0.5 respectively. -/
def failOracle : WriterOracle :=
  { write_initial := fun _ _ _ => "d1"
    refine := fun a _ _ _ => a ++ "r"
    score := fun a t =>
      { score := FloatVal.finite
          (if a = "d1" then 2/5 else if a = "d1r" then 7/10 else 1/2)
        feedback := "needs work"
        passes := false
        threshold := t
        message := "no"
        statCalls := 1
        llmCalls := 1 } }

/-- Witness for C3: three failing rounds as in the spec example. -/
theorem C3_loop_exhaustion_witness :
    ∃ res : WriteResult,
      IterativeWriterAgent.invoke failOracle 3 (4/5) ""
          { source_content := some "src", user_prompt := none } =
        .ok (.result res) ∧
      res.success = false ∧
      res.iterations = 3 ∧
      res.history.length = 3 ∧
      res.history.map IterationRecord.iteration = List.range' 1 3 ∧
      ∃ best ∈ res.history, res.final_article = best.article ∧ res.score = best.score ∧
        ∀ r ∈ res.history, FloatVal.fle r.score best.score = true :=
  C3_loop_exhaustion failOracle 3 (4/5) ""
    { source_content := some "src", user_prompt := none }
    (by simp [inputSource]) (by omega) (fun a => rfl) (fun a => rfl)

/-! ## C4 : first-pass termination -/

/-- A completed loop never accumulates more records than it has remaining
rounds (plus what it started with). -/
theorem writeLoop_history_bound (o : WriterOracle) (maxIterations : Nat) (threshold : ℚ)
    (source user fwctx : String) :
    ∀ (remaining iteration : Nat) (prevA prevF : String) (history : List IterationRecord)
      (res : WriteResult),
      writeLoop o maxIterations threshold source user fwctx remaining iteration prevA prevF
          history = .ok (.result res) →
      res.history.length ≤ history.length + remaining := by
  intro remaining
  induction remaining with
  | zero =>
    intro iteration prevA prevF history res h
    simp only [writeLoop] at h
    cases hpm : pyMaxByScore history with
    | none =>
      rw [hpm] at h
      exact Except.noConfusion h
    | some best =>
      simp only [hpm] at h
      injection h with h
      injection h with h
      rw [← h]
      simp
  | succ r ihr =>
    intro iteration prevA prevF history res h
    simp only [writeLoop] at h
    split at h <;> split at h
    all_goals first
      | (injection h with h
         injection h with h
         rw [← h]
         simp)
      | (have hb := ihr _ _ _ _ _ h
         simp only [List.length_append, List.length_cons, List.length_nil] at hb
         omega)

/-- Specialization to `invoke`: a returned result holds at most
`max_iterations` records. -/
theorem invoke_history_bound (o : WriterOracle) (maxIterations : Nat) (threshold : ℚ)
    (fwctx : String) (input : WriterInput) (res : WriteResult)
    (h : IterativeWriterAgent.invoke o maxIterations threshold fwctx input =
      .ok (.result res)) :
    res.history.length ≤ maxIterations := by
  unfold IterativeWriterAgent.invoke at h
  split at h
  · injection h with h
    exact InvokeOutcome.noConfusion h
  · simpa using
      writeLoop_history_bound o maxIterations threshold (inputSource input)
        (inputPrompt input) fwctx maxIterations 1 "" "" [] res h

/-- The article drafted at iteration `i ≥ 1` from the state left by
iteration `i - 1` is exactly the chain article of iteration `i`. -/
theorem loop_article_eq (o : WriterOracle) (threshold : ℚ) (source user fwctx : String)
    (i : Nat) (h1 : 1 ≤ i) :
    (if i = 1 then o.write_initial source user fwctx
      else o.refine (draftState o threshold source user fwctx (i - 1)).1
        (draftState o threshold source user fwctx (i - 1)).2 source fwctx)
      = (draftState o threshold source user fwctx i).1 := by
  cases i with
  | zero => omega
  | succ n =>
    by_cases hn : n = 0
    · subst hn
      simp [draftState]
    · have hne : ¬ (n + 1 = 1) := by omega
      simp only [hne, if_false, draftState, hn, Nat.add_sub_cancel]

/-- The feedback recorded for the article of iteration `i ≥ 1` is the chain
feedback of iteration `i`. -/
theorem loop_feedback_eq (o : WriterOracle) (threshold : ℚ) (source user fwctx : String)
    (i : Nat) (h1 : 1 ≤ i) :
    (o.score (draftState o threshold source user fwctx i).1 threshold).feedback
      = (draftState o threshold source user fwctx i).2 := by
  cases i with
  | zero => omega
  | succ n => rfl

/-- Core of C4: starting at iteration `iteration` in a consistent loop state,
with the chain failing strictly before `k` and passing at `k`, the loop
stops at `k` with that draft, `success=true`, and a history of exactly `k`
records numbered 1..k. -/
theorem writeLoop_first_pass (o : WriterOracle) (maxIterations : Nat) (threshold : ℚ)
    (source user fwctx : String) (k : Nat)
    (hbefore : ∀ j, 1 ≤ j → j < k →
      (o.score (draftState o threshold source user fwctx j).1 threshold).passes = false)
    (hpass : (o.score (draftState o threshold source user fwctx k).1 threshold).passes = true) :
    ∀ (remaining iteration : Nat) (history : List IterationRecord),
      1 ≤ iteration → iteration ≤ k → k ≤ iteration + remaining - 1 → 1 ≤ remaining →
      history.length = iteration - 1 →
      history.map IterationRecord.iteration = List.range' 1 (iteration - 1) →
      ∃ hist2 : List IterationRecord,
        writeLoop o maxIterations threshold source user fwctx remaining iteration
            (draftState o threshold source user fwctx (iteration - 1)).1
            (draftState o threshold source user fwctx (iteration - 1)).2 history
          = .ok (.result
              { final_article := (draftState o threshold source user fwctx k).1
                score :=
                  (o.score (draftState o threshold source user fwctx k).1 threshold).score
                iterations := k
                history := hist2
                success := true
                message := none }) ∧
        hist2.length = k ∧
        hist2.map IterationRecord.iteration = List.range' 1 k := by
  intro remaining
  induction remaining with
  | zero =>
    intro iteration history h1 hik hkle hrem hhlen hhmap
    omega
  | succ r ihr =>
    intro iteration history h1 hik hkle hrem hhlen hhmap
    have hart := loop_article_eq o threshold source user fwctx iteration h1
    by_cases hik2 : iteration = k
    · subst hik2
      refine ⟨history ++
        [{ iteration := iteration
           article := (draftState o threshold source user fwctx iteration).1
           score :=
             (o.score (draftState o threshold source user fwctx iteration).1 threshold).score
           feedback :=
             (o.score (draftState o threshold source user fwctx iteration).1 threshold).feedback
           passes :=
             (o.score (draftState o threshold source user fwctx iteration).1 threshold).passes }],
        ?_, ?_, ?_⟩
      · simp only [writeLoop, hart]
        rw [if_pos hpass]
      · simp only [List.length_append, List.length_cons, List.length_nil, hhlen]
        omega
      · simp only [List.map_append, List.map_cons, List.map_nil, hhmap]
        have : List.range' 1 (iteration - 1) ++ [iteration] = List.range' 1 iteration := by
          have h2 : iteration = (iteration - 1) + 1 := by omega
          rw [h2, List.range'_concat]
          simp
          omega
        simpa using this
    · have hlt : iteration < k := lt_of_le_of_ne hik hik2
      have hfalse := hbefore iteration h1 hlt
      have hnp : ¬ ((o.score (draftState o threshold source user fwctx iteration).1
          threshold).passes = true) := by
        rw [hfalse]
        simp
      have hone : writeLoop o maxIterations threshold source user fwctx (r + 1) iteration
          (draftState o threshold source user fwctx (iteration - 1)).1
          (draftState o threshold source user fwctx (iteration - 1)).2 history
          = writeLoop o maxIterations threshold source user fwctx r (iteration + 1)
            (draftState o threshold source user fwctx iteration).1
            (draftState o threshold source user fwctx iteration).2
            (history ++
              [{ iteration := iteration
                 article := (draftState o threshold source user fwctx iteration).1
                 score := (o.score (draftState o threshold source user fwctx iteration).1
                   threshold).score
                 feedback := (draftState o threshold source user fwctx iteration).2
                 passes := (o.score (draftState o threshold source user fwctx iteration).1
                   threshold).passes }]) := by
        simp only [writeLoop, hart]
        rw [if_neg hnp, loop_feedback_eq o threshold source user fwctx iteration h1]
      rw [hone]
      have hrec := ihr (iteration + 1)
        (history ++
          [{ iteration := iteration
             article := (draftState o threshold source user fwctx iteration).1
             score := (o.score (draftState o threshold source user fwctx iteration).1
               threshold).score
             feedback := (draftState o threshold source user fwctx iteration).2
             passes := (o.score (draftState o threshold source user fwctx iteration).1
               threshold).passes }])
        (by omega) (by omega) (by omega) (by omega)
        (by
          simp only [List.length_append, List.length_cons, List.length_nil, hhlen]
          omega)
        (by
          simp only [List.map_append, List.map_cons, List.map_nil, hhmap]
          have h2 : iteration = (iteration - 1) + 1 := by omega
          have : List.range' 1 (iteration - 1) ++ [iteration] = List.range' 1 iteration := by
            rw [h2, List.range'_concat]
            simp
            omega
          simpa using this)
      simpa using hrec

/-- C4: each round drafts, scores, and appends one record; the loop stops at
the first passing iteration `k` with `success=true`, `iterations=k`, that
draft as final article and exactly `k` records, never more than
`max_iterations` of them — and, every external call being a total function
of the embedding, `invoke` is itself a total function, so it terminates. -/
theorem C4_first_pass_termination (o : WriterOracle) (maxIterations : Nat) (threshold : ℚ)
    (fwctx : String) (input : WriterInput) (k : Nat)
    (hsrc : ¬ inputSource input = "")
    (hk1 : 1 ≤ k) (hk2 : k ≤ maxIterations)
    (hbefore : ∀ j, 1 ≤ j → j < k →
      (o.score (draftState o threshold (inputSource input) (inputPrompt input) fwctx j).1
        threshold).passes = false)
    (hpass : (o.score (draftState o threshold (inputSource input) (inputPrompt input) fwctx
      k).1 threshold).passes = true) :
    ∃ res : WriteResult,
      IterativeWriterAgent.invoke o maxIterations threshold fwctx input =
        .ok (.result res) ∧
      res.success = true ∧
      res.iterations = k ∧
      res.final_article =
        (draftState o threshold (inputSource input) (inputPrompt input) fwctx k).1 ∧
      res.score = (o.score (draftState o threshold (inputSource input) (inputPrompt input)
        fwctx k).1 threshold).score ∧
      res.history.length = k ∧
      res.history.length ≤ maxIterations ∧
      res.history.map IterationRecord.iteration = List.range' 1 k := by
  obtain ⟨hist2, heq, hlen, hmap⟩ :=
    writeLoop_first_pass o maxIterations threshold (inputSource input) (inputPrompt input)
      fwctx k hbefore hpass maxIterations 1 [] (by omega) hk1 (by omega) (by omega)
      (by simp) (by simp)
  have hinv : IterativeWriterAgent.invoke o maxIterations threshold fwctx input =
      writeLoop o maxIterations threshold (inputSource input) (inputPrompt input) fwctx
        maxIterations 1 "" "" [] := by
    unfold IterativeWriterAgent.invoke
    rw [if_neg hsrc]
  refine ⟨{ final_article :=
              (draftState o threshold (inputSource input) (inputPrompt input) fwctx k).1
            score := (o.score (draftState o threshold (inputSource input) (inputPrompt input)
              fwctx k).1 threshold).score
            iterations := k
            history := hist2
            success := true
            message := none }, ?_, rfl, rfl, rfl, rfl, hlen, by rw [hlen]; omega, hmap⟩
  rw [hinv]
  exact heq

/-- Witness for C4: an always-passing scorer stops at iteration 1. -/
theorem C4_first_pass_termination_witness :
    ∃ res : WriteResult,
      IterativeWriterAgent.invoke passOracle 5 (4/5) ""
          { source_content := some "text", user_prompt := none } =
        .ok (.result res) ∧
      res.success = true ∧
      res.iterations = 1 ∧
      res.final_article =
        (draftState passOracle (4/5)
          (inputSource { source_content := some "text", user_prompt := none })
          (inputPrompt { source_content := some "text", user_prompt := none }) "" 1).1 ∧
      res.score = (passOracle.score (draftState passOracle (4/5)
          (inputSource { source_content := some "text", user_prompt := none })
          (inputPrompt { source_content := some "text", user_prompt := none }) "" 1).1
        (4/5)).score ∧
      res.history.length = 1 ∧
      res.history.length ≤ 5 ∧
      res.history.map IterationRecord.iteration = List.range' 1 1 :=
  C4_first_pass_termination passOracle 5 (4/5) ""
    { source_content := some "text", user_prompt := none } 1
    (by simp [inputSource]) (by omega) (by omega)
    (fun j hj hjk => absurd hjk (Nat.not_lt.mpr hj))
    rfl

/-! ## C7 : text_features safety -/

/-- When the word tokenizer succeeds on every string, the per-sentence
re-tokenization succeeds as a whole. -/
theorem mapM_tok_lengths_ok (tok : Tok) (sents : List String)
    (h : ∀ s, ∃ ws, tok.wordTok s = .ok ws) :
    ∃ lens : List Nat,
      sents.mapM (fun s => Except.map List.length (tok.wordTok s)) = .ok lens := by
  induction sents with
  | nil => exact ⟨[], rfl⟩
  | cons x xs ih =>
    obtain ⟨lens, hlens⟩ := ih
    obtain ⟨ws, hws⟩ := h x
    refine ⟨ws.length :: lens, ?_⟩
    rw [List.mapM_cons, hws, hlens]
    rfl

/-- The feature body never fails when the word tokenizer is total, and then
always yields a length-5 vector. -/
theorem text_features_core_ok (tok : Tok) (words sents : List String)
    (h : ∀ s, ∃ ws, tok.wordTok s = .ok ws) :
    ∃ v, text_features_core tok words sents = .ok v ∧ v.length = 5 := by
  unfold text_features_core
  by_cases hn : words.length = 0
  · rw [if_pos hn]
    exact ⟨zeros5, rfl, rfl⟩
  · rw [if_neg hn]
    by_cases hs : sents.isEmpty = true
    · rw [if_pos hs]
      exact ⟨_, rfl, rfl⟩
    · obtain ⟨lens, hlens⟩ := mapM_tok_lengths_ok tok sents h
      rw [if_neg hs, hlens]
      exact ⟨_, rfl, rfl⟩

/-- C7, amended: `text_features` returns the all-zero length-5 vector on
non-string or blank input; and it never fails provided the word tokenizer
never fails — in which case the result always has the fixed length 5.  (The
unguarded per-sentence re-tokenization is the only escape hatch; see the
counterexample.) -/
theorem C7_text_features_amended (tok : Tok) (text : String) :
    (text_features tok none = .ok zeros5) ∧
    (pyStripEmpty text = true → text_features tok (some text) = .ok zeros5) ∧
    ((∀ s, ∃ ws, tok.wordTok s = .ok ws) →
      ∃ v, text_features tok (some text) = .ok v ∧ v.length = 5) := by
  refine ⟨rfl, fun h => ?_, fun h => ?_⟩
  · unfold text_features
    dsimp only
    rw [if_pos h]
  · unfold text_features
    dsimp only
    by_cases hstrip : pyStripEmpty text = true
    · rw [if_pos hstrip]
      exact ⟨zeros5, rfl, rfl⟩
    · rw [if_neg hstrip]
      obtain ⟨ws0, hws0⟩ := h text
      cases hsent : tok.sentTok text with
      | ok ss =>
        rw [hws0]
        exact text_features_core_ok tok ws0 ss h
      | error e =>
        rw [hws0]
        exact text_features_core_ok tok (pySplit text) (pySplitDot text) h

/-- Witness for C7 with a total whitespace tokenizer on a blank and a
nonblank text. -/
theorem C7_text_features_amended_witness :
    (text_features wsTok none = .ok zeros5) ∧
    (pyStripEmpty "   " = true → text_features wsTok (some "   ") = .ok zeros5) ∧
    ∃ v, text_features wsTok (some "ab cd.") = .ok v ∧ v.length = 5 :=
  ⟨(C7_text_features_amended wsTok "   ").1,
   (C7_text_features_amended wsTok "   ").2.1,
   (C7_text_features_amended wsTok "ab cd.").2.2 fun s => ⟨pySplit s, rfl⟩⟩

/-- C7, counterexample.  With a tokenizer that always raises (for instance
when the punkt data is missing), the guarded top-level calls fall back to
whitespace/period splitting, but the per-sentence re-tokenization in the
average-sentence-length computation raises — `text_features` propagates the
exception instead of returning a zero vector. -/
theorem C7_counterexample :
    text_features failTok (some "ab cd.") = .error () := rfl

/-! ## C8 : the feedback-text contract and its regex consumers -/

/-- Case-insensitive literal match of `lbl` at the head of `s`, returning
the remainder on success. -/
def dropLabel : List Char → List Char → Option (List Char)
  | [], rest => some rest
  | _ :: _, [] => none
  | l :: ls, c :: cs => if l.toLower = c.toLower then dropLabel ls cs else none

/-- One anchored attempt of the orchestrator pattern
`<label>\s*(\d+\.\d+)` (with `re.IGNORECASE` on the label): the label, then
greedy whitespace, then the captured digits-dot-digits group. -/
def tryMatchAt (lbl : List Char) (s : List Char) : Option String :=
  match dropLabel lbl s with
  | none => none
  | some rest =>
    let rest2 := rest.dropWhile fun c => c.isWhitespace
    let d1 := rest2.takeWhile fun c => c.isDigit
    let r1 := rest2.dropWhile fun c => c.isDigit
    if d1 = [] then none
    else
      match r1 with
      | c :: r2 =>
        if c = '.' then
          let d2 := r2.takeWhile fun c => c.isDigit
          if d2 = [] then none
          else some (String.mk (d1 ++ '.' :: d2))
        else none
      | [] => none

/-- Python `re.search`: try every position left to right, first full match wins. -/
def extractScoreAux (lbl : List Char) : List Char → Option String
  | [] => tryMatchAt lbl []
  | c :: cs =>
    match tryMatchAt lbl (c :: cs) with
    | some v => some v
    | none => extractScoreAux lbl cs

/-- The component-score extraction of `OrchestratorAgent.rewrite_only`:
`re.search(label + "\s*(\d+\.\d+)", feedback, re.IGNORECASE)` and group 1. -/
def extractScore (lbl s : String) : Option String :=
  extractScoreAux lbl.data s.data

/-- The characters a nonnegative two-decimal rendering can contain. -/
def fmtCharSet : List Char := ['0', '1', '2', '3', '4', '5', '6', '7', '8', '9', '.']

theorem digitCh_isDigit (d : Nat) (h : d < 10) :
    (digitCh d).isDigit = true ∧ digitCh d ∈ fmtCharSet := by
  interval_cases d <;> exact ⟨by decide, by decide⟩

theorem natDigitsAux_digit (fuel : Nat) :
    ∀ n, ∀ c ∈ natDigitsAux fuel n, c.isDigit = true ∧ c ∈ fmtCharSet := by
  induction fuel with
  | zero =>
    intro n c hc
    simp [natDigitsAux] at hc
  | succ f ih =>
    intro n c hc
    cases n with
    | zero => simp [natDigitsAux] at hc
    | succ m =>
      simp only [natDigitsAux, List.mem_cons] at hc
      rcases hc with hc | hc
      · subst hc
        exact digitCh_isDigit _ (Nat.mod_lt _ (by norm_num))
      · exact ih _ c hc

theorem digitsOf_digit (n : Nat) : ∀ c ∈ digitsOf n, c.isDigit = true ∧ c ∈ fmtCharSet := by
  intro c hc
  cases n with
  | zero =>
    simp only [digitsOf, List.mem_singleton] at hc
    subst hc
    exact ⟨by decide, by decide⟩
  | succ m =>
    simp only [digitsOf, List.mem_reverse] at hc
    exact natDigitsAux_digit (m + 1) (m + 1) c hc

theorem digitsOf_ne_nil (n : Nat) : digitsOf n ≠ [] := by
  cases n with
  | zero => simp [digitsOf]
  | succ m =>
    simp only [digitsOf, ne_eq, List.reverse_eq_nil_iff]
    simp [natDigitsAux]

/-- Structure of the nonnegative fixed-point rendering: nonempty digits,
a dot, nonempty digits. -/
theorem fmtQ_structure_nonneg (prec : Nat) (q : ℚ) (h : 0 ≤ q) :
    ∃ d1 d2 : List Char, fmtQ prec q = d1 ++ '.' :: d2 ∧ d1 ≠ [] ∧ d2 ≠ [] ∧
      (∀ c ∈ d1, c.isDigit = true ∧ c ∈ fmtCharSet) ∧
      (∀ c ∈ d2, c.isDigit = true ∧ c ∈ fmtCharSet) := by
  unfold fmtQ
  rw [if_neg (not_lt.mpr h)]
  unfold fmtQnn
  refine ⟨_, _, rfl, digitsOf_ne_nil _, ?_, digitsOf_digit _, ?_⟩
  · intro hnil
    rcases List.append_eq_nil.mp hnil with ⟨_, h2⟩
    exact digitsOf_ne_nil _ h2
  · intro c hc
    rcases List.mem_append.mp hc with hc' | hc'
    · have := List.eq_of_mem_replicate hc'
      subst this
      exact ⟨by decide, by decide⟩
    · exact digitsOf_digit _ c hc'

/-- Decidable check: matching the label against this text fails on a
mismatch before either side runs out. -/
def failsWithinB : List Char → List Char → Bool
  | [], _ => false
  | _ :: _, [] => false
  | l :: ls, c :: cs => if l.toLower = c.toLower then failsWithinB ls cs else true

theorem dropLabel_none_of_failsWithin (lbl : List Char) :
    ∀ xs ys : List Char, failsWithinB lbl xs = true → dropLabel lbl (xs ++ ys) = none := by
  induction lbl with
  | nil =>
    intro xs ys h
    simp [failsWithinB] at h
  | cons l ls ih =>
    intro xs ys h
    cases xs with
    | nil => simp [failsWithinB] at h
    | cons c cs =>
      simp only [failsWithinB] at h
      by_cases hc : l.toLower = c.toLower
      · rw [if_pos hc] at h
        simp only [List.cons_append, dropLabel, if_pos hc]
        exact ih cs ys h
      · simp only [List.cons_append, dropLabel, if_neg hc]

theorem tryMatchAt_none_of_dropLabel_none (lbl s : List Char)
    (h : dropLabel lbl s = none) : tryMatchAt lbl s = none := by
  unfold tryMatchAt
  rw [h]

/-- When no window starting inside `xs` matches, the scan passes over `xs`. -/
theorem extractAux_append (lbl : List Char) :
    ∀ xs ys : List Char, (∀ i, i < xs.length → tryMatchAt lbl (xs.drop i ++ ys) = none) →
      extractScoreAux lbl (xs ++ ys) = extractScoreAux lbl ys := by
  intro xs
  induction xs with
  | nil => intro ys _; rfl
  | cons c cs ih =>
    intro ys h
    have h0 := h 0 (by simp)
    simp only [List.drop_zero] at h0
    rw [List.cons_append]
    rw [List.cons_append] at h0
    simp only [extractScoreAux, h0]
    exact ih ys fun i hi => by
      have := h (i + 1) (by simpa using Nat.succ_lt_succ hi)
      simpa using this

/-- Decidable sufficient condition for skipping a concrete segment. -/
def skipsClean (lbl s : String) : Bool :=
  (List.range s.data.length).all fun i => failsWithinB lbl.data (s.data.drop i)

theorem extractAux_skip_concrete (lbl s : String) (ys : List Char)
    (h : skipsClean lbl s = true) :
    extractScoreAux lbl.data (s.data ++ ys) = extractScoreAux lbl.data ys := by
  refine extractAux_append lbl.data s.data ys fun i hi => ?_
  have hall := List.all_eq_true.mp h i (List.mem_range.mpr hi)
  exact tryMatchAt_none_of_dropLabel_none _ _
    (dropLabel_none_of_failsWithin lbl.data _ ys hall)

/-- Decidable check: the label head can never open a match inside a
two-decimal rendering. -/
def missesFmt (lbl : String) : Bool :=
  match lbl.data with
  | [] => false
  | l0 :: _ => fmtCharSet.all fun c => decide (¬ l0.toLower = c.toLower)

/-- The scan passes over a rendered nonnegative value. -/
theorem extractAux_skip_fmt (lbl : String) (q : ℚ) (hq : 0 ≤ q) (ys : List Char)
    (h : missesFmt lbl = true) :
    extractScoreAux lbl.data (fmtQ 2 q ++ ys) = extractScoreAux lbl.data ys := by
  obtain ⟨d1, d2, hsplit, _, _, hd1, hd2⟩ := fmtQ_structure_nonneg 2 q hq
  have hmem : ∀ c ∈ fmtQ 2 q, c ∈ fmtCharSet := by
    intro c hc
    rw [hsplit] at hc
    rcases List.mem_append.mp hc with hc' | hc'
    · exact (hd1 c hc').2
    · rcases List.mem_cons.mp hc' with hc'' | hc''
      · subst hc''; decide
      · exact (hd2 c hc'').2
  refine extractAux_append lbl.data (fmtQ 2 q) ys fun i hi => ?_
  cases hlbl : lbl.data with
  | nil =>
    exfalso
    unfold missesFmt at h
    rw [hlbl] at h
    simp at h
  | cons l0 ls =>
    cases hD : (fmtQ 2 q).drop i with
    | nil =>
      exfalso
      rw [List.drop_eq_nil_iff] at hD
      omega
    | cons c cs =>
      have hcmem : c ∈ fmtQ 2 q :=
        List.mem_of_mem_drop (hD ▸ List.mem_cons_self c cs)
      have hcset := hmem c hcmem
      have hne : ¬ l0.toLower = c.toLower := by
        unfold missesFmt at h
        rw [hlbl] at h
        have := List.all_eq_true.mp h c hcset
        simpa using this
      apply tryMatchAt_none_of_dropLabel_none
      show dropLabel (l0 :: ls) (c :: (cs ++ ys)) = none
      unfold dropLabel
      rw [if_neg hne]

theorem dropLabel_self (lbl : List Char) : ∀ rest, dropLabel lbl (lbl ++ rest) = some rest := by
  induction lbl with
  | nil => intro rest; rfl
  | cons l ls ih => intro rest; simp [dropLabel, ih]

/-- Behavior of `takeWhile`/`dropWhile` across a boundary where the predicate flips. -/
theorem span_append_exact (p : Char → Bool) :
    ∀ (xs ys : List Char), (∀ c ∈ xs, p c = true) →
      (∀ c, ys.head? = some c → p c = false) →
      (xs ++ ys).takeWhile p = xs ∧ (xs ++ ys).dropWhile p = ys := by
  intro xs
  induction xs with
  | nil =>
    intro ys _ hy
    cases ys with
    | nil => simp
    | cons y ys' =>
      have := hy y rfl
      simp [List.takeWhile_cons, List.dropWhile_cons, this]
  | cons x xs' ih =>
    intro ys hx hy
    have hxx := hx x (List.mem_cons_self x xs')
    obtain ⟨ht, hd⟩ := ih ys (fun c hc => hx c (List.mem_cons_of_mem _ hc)) hy
    simp [List.takeWhile_cons, List.dropWhile_cons, hxx, ht, hd]

theorem digit_not_ws (c : Char) (h : c.isDigit = true) : c.isWhitespace = false := by
  by_contra hw
  rw [Bool.not_eq_false] at hw
  simp only [Char.isWhitespace, Bool.or_eq_true, decide_eq_true_eq] at hw
  rcases hw with ((hc | hc) | hc) | hc <;>
    (subst hc; exact absurd h (by decide))

/-- An anchored match right at the label: captures exactly the rendered
two-decimal value. -/
theorem tryMatchAt_label (lbl sp : String) (q : ℚ) (hq : 0 ≤ q) (rest : List Char)
    (hsp : ∀ c ∈ sp.data, c.isWhitespace = true)
    (hrest : ∀ c, rest.head? = some c → c.isDigit = false) :
    tryMatchAt lbl.data (lbl.data ++ (sp.data ++ (fmtQ 2 q ++ rest)))
      = some (String.mk (fmtQ 2 q)) := by
  obtain ⟨d1, d2, hsplit, hd1, hd2, hd1d, hd2d⟩ := fmtQ_structure_nonneg 2 q hq
  have hfirst : ∀ c, (fmtQ 2 q ++ rest).head? = some c → c.isWhitespace = false := by
    intro c hc
    rw [hsplit] at hc
    cases d1 with
    | nil => exact absurd rfl hd1
    | cons a d1' =>
      simp only [List.cons_append, List.head?_cons, Option.some.injEq] at hc
      subst hc
      exact digit_not_ws a (hd1d a (List.mem_cons_self a d1')).1
  have hws1 : (sp.data ++ (fmtQ 2 q ++ rest)).dropWhile (fun c => c.isWhitespace)
      = fmtQ 2 q ++ rest :=
    (span_append_exact _ sp.data (fmtQ 2 q ++ rest) hsp hfirst).2
  have hassoc : fmtQ 2 q ++ rest = d1 ++ ('.' :: (d2 ++ rest)) := by
    rw [hsplit]
    simp
  have hspan1 := span_append_exact (fun c => c.isDigit) d1 ('.' :: (d2 ++ rest))
    (fun c hc => (hd1d c hc).1)
    (fun c hc => by
      simp only [List.head?_cons, Option.some.injEq] at hc
      subst hc
      decide)
  have htake1 : (fmtQ 2 q ++ rest).takeWhile (fun c => c.isDigit) = d1 := by
    rw [hassoc]
    exact hspan1.1
  have hdrop1 : (fmtQ 2 q ++ rest).dropWhile (fun c => c.isDigit) = '.' :: (d2 ++ rest) := by
    rw [hassoc]
    exact hspan1.2
  have htake2 : (d2 ++ rest).takeWhile (fun c => c.isDigit) = d2 :=
    (span_append_exact _ d2 rest (fun c hc => (hd2d c hc).1) hrest).1
  unfold tryMatchAt
  rw [dropLabel_self]
  dsimp only
  rw [hws1, htake1, hdrop1, if_neg hd1]
  dsimp only
  rw [if_pos rfl, htake2, if_neg hd2, hsplit]

/-- A successful anchored attempt at the current position ends the scan. -/
theorem extractAux_here (lbl s : List Char) (v : String)
    (h : tryMatchAt lbl s = some v) : extractScoreAux lbl s = some v := by
  cases s with
  | nil => simpa [extractScoreAux] using h
  | cons c cs => simp [extractScoreAux, h]

theorem stringMk_data (l : List Char) : (String.mk l).data = l := rfl

/-- Decidable check: the segment opens with a non-digit character. -/
def headNotDigit (s : String) : Bool :=
  match s.data with
  | [] => false
  | c :: _ => !c.isDigit

theorem rest_head_not_digit (s : String) (X : List Char) (h : headNotDigit s = true) :
    ∀ c, (s.data ++ X).head? = some c → c.isDigit = false := by
  intro c hc
  unfold headNotDigit at h
  cases hs : s.data with
  | nil =>
    rw [hs] at h
    simp at h
  | cons c0 t =>
    rw [hs] at hc
    simp only [List.cons_append, List.head?_cons, Option.some.injEq] at hc
    subst hc
    rw [hs] at h
    simpa using h

def allWs (s : String) : Bool := s.data.all fun c => c.isWhitespace

theorem allWs_spec (s : String) (h : allWs s = true) :
    ∀ c ∈ s.data, c.isWhitespace = true :=
  fun c hc => List.all_eq_true.mp h c hc

/-- Scan arriving exactly at a component line: the capture is the rendered
two-decimal value. -/
theorem extract_at (lbl sp : String) (q : ℚ) (hq : 0 ≤ q) (rest : List Char)
    (hsp : ∀ c ∈ sp.data, c.isWhitespace = true)
    (hrest : ∀ c, rest.head? = some c → c.isDigit = false) :
    extractScoreAux lbl.data (lbl.data ++ (sp.data ++ (fmtQ 2 q ++ rest)))
      = some (fmtQS 2 q) :=
  extractAux_here _ _ _ (tryMatchAt_label lbl sp q hq rest hsp hrest)

/-- A rubric response whose six numeric scores are finite and
nonnegative. -/
def RubricNumeric (r : RubricResult) (qo ql qs qv qt qa : ℚ) : Prop :=
  r.overall_score = FloatVal.finite qo ∧ 0 ≤ qo ∧
  r.lead_quality = FloatVal.finite ql ∧ 0 ≤ ql ∧
  r.structure_score = FloatVal.finite qs ∧ 0 ≤ qs ∧
  r.vocabulary_score = FloatVal.finite qv ∧ 0 ≤ qv ∧
  r.tone_score = FloatVal.finite qt ∧ 0 ≤ qt ∧
  r.attribution_score = FloatVal.finite qa ∧ 0 ≤ qa

set_option maxRecDepth 20000 in
/-- C8, amended: for every rubric response that parses as JSON with finite
nonnegative numeric scores, the feedback of `llm_based_score` contains each
of the five component lines `<Label>:<spaces><value two decimals>/1.00`,
and each of the five fixed-label regexes of
`OrchestratorAgent.rewrite_only` matches the feedback and extracts exactly
that rendered component value.  (A non-finite component such as JSON `NaN`
breaks the contract; see the counterexample.) -/
theorem C8_feedback_contract (r : RubricResult) (qo ql qs qv qt qa : ℚ)
    (hnum : RubricNumeric r qo ql qs qv qt qa) :
    extractScore lblLead (formatFeedback r) = some (fmtQS 2 ql) ∧
    extractScore lblStructure (formatFeedback r) = some (fmtQS 2 qs) ∧
    extractScore lblVocabulary (formatFeedback r) = some (fmtQS 2 qv) ∧
    extractScore lblTone (formatFeedback r) = some (fmtQS 2 qt) ∧
    extractScore lblAttribution (formatFeedback r) = some (fmtQS 2 qa) ∧
    (∃ pre post, (formatFeedback r).data
      = pre ++ (lblLead.data ++ (spLead.data ++ (fmtQ 2 ql ++ "/1.00".data))) ++ post) ∧
    (∃ pre post, (formatFeedback r).data
      = pre ++ (lblStructure.data ++ (spStructure.data ++ (fmtQ 2 qs ++ "/1.00".data))) ++ post) ∧
    (∃ pre post, (formatFeedback r).data
      = pre ++ (lblVocabulary.data ++ (spVocabulary.data ++ (fmtQ 2 qv ++ "/1.00".data))) ++ post) ∧
    (∃ pre post, (formatFeedback r).data
      = pre ++ (lblTone.data ++ (spTone.data ++ (fmtQ 2 qt ++ "/1.00".data))) ++ post) ∧
    (∃ pre post, (formatFeedback r).data
      = pre ++ (lblAttribution.data ++ (spAttribution.data ++ (fmtQ 2 qa ++ "/1.00".data))) ++ post) := by
  obtain ⟨ho, ho0, hl, hl0, hs, hs0, hv, hv0, ht, ht0, ha, ha0⟩ := hnum
  have hfb : (formatFeedback r).data = fbSeg0.data ++ (fmtQ 2 qo ++ (fbC1a.data ++ (lblLead.data ++ (spLead.data ++ (fmtQ 2 ql ++ (fbC2a.data ++ (lblStructure.data ++ (spStructure.data ++ (fmtQ 2 qs ++ (fbC2a.data ++ (lblVocabulary.data ++ (spVocabulary.data ++ (fmtQ 2 qv ++ (fbC2a.data ++ (lblTone.data ++ (spTone.data ++ (fmtQ 2 qt ++ (fbC2a.data ++ (lblAttribution.data ++ (spAttribution.data ++ (fmtQ 2 qa ++ (fbC6.data ++ ((fbTail r).data))))))))))))))))))))))) := by
    simp [formatFeedback, fbComponents, fmtFloatS, fmtFloat, ho, hl, hs, hv, ht, ha,
      stringMk_data, List.append_assoc]
  refine ⟨?_, ?_, ?_, ?_, ?_, ?_, ?_, ?_, ?_, ?_⟩
  · unfold extractScore
    rw [hfb,
      extractAux_skip_concrete lblLead fbSeg0 _ (by decide),
      extractAux_skip_fmt lblLead qo ho0 _ (by decide),
      extractAux_skip_concrete lblLead fbC1a _ (by decide)]
    exact extract_at lblLead spLead ql hl0 _ (allWs_spec spLead (by decide))
      (rest_head_not_digit fbC2a _ (by decide))
  · unfold extractScore
    rw [hfb,
      extractAux_skip_concrete lblStructure fbSeg0 _ (by decide),
      extractAux_skip_fmt lblStructure qo ho0 _ (by decide),
      extractAux_skip_concrete lblStructure fbC1a _ (by decide),
      extractAux_skip_concrete lblStructure lblLead _ (by decide),
      extractAux_skip_concrete lblStructure spLead _ (by decide),
      extractAux_skip_fmt lblStructure ql hl0 _ (by decide),
      extractAux_skip_concrete lblStructure fbC2a _ (by decide)]
    exact extract_at lblStructure spStructure qs hs0 _ (allWs_spec spStructure (by decide))
      (rest_head_not_digit fbC2a _ (by decide))
  · unfold extractScore
    rw [hfb,
      extractAux_skip_concrete lblVocabulary fbSeg0 _ (by decide),
      extractAux_skip_fmt lblVocabulary qo ho0 _ (by decide),
      extractAux_skip_concrete lblVocabulary fbC1a _ (by decide),
      extractAux_skip_concrete lblVocabulary lblLead _ (by decide),
      extractAux_skip_concrete lblVocabulary spLead _ (by decide),
      extractAux_skip_fmt lblVocabulary ql hl0 _ (by decide),
      extractAux_skip_concrete lblVocabulary fbC2a _ (by decide),
      extractAux_skip_concrete lblVocabulary lblStructure _ (by decide),
      extractAux_skip_concrete lblVocabulary spStructure _ (by decide),
      extractAux_skip_fmt lblVocabulary qs hs0 _ (by decide),
      extractAux_skip_concrete lblVocabulary fbC2a _ (by decide)]
    exact extract_at lblVocabulary spVocabulary qv hv0 _ (allWs_spec spVocabulary (by decide))
      (rest_head_not_digit fbC2a _ (by decide))
  · unfold extractScore
    rw [hfb,
      extractAux_skip_concrete lblTone fbSeg0 _ (by decide),
      extractAux_skip_fmt lblTone qo ho0 _ (by decide),
      extractAux_skip_concrete lblTone fbC1a _ (by decide),
      extractAux_skip_concrete lblTone lblLead _ (by decide),
      extractAux_skip_concrete lblTone spLead _ (by decide),
      extractAux_skip_fmt lblTone ql hl0 _ (by decide),
      extractAux_skip_concrete lblTone fbC2a _ (by decide),
      extractAux_skip_concrete lblTone lblStructure _ (by decide),
      extractAux_skip_concrete lblTone spStructure _ (by decide),
      extractAux_skip_fmt lblTone qs hs0 _ (by decide),
      extractAux_skip_concrete lblTone fbC2a _ (by decide),
      extractAux_skip_concrete lblTone lblVocabulary _ (by decide),
      extractAux_skip_concrete lblTone spVocabulary _ (by decide),
      extractAux_skip_fmt lblTone qv hv0 _ (by decide),
      extractAux_skip_concrete lblTone fbC2a _ (by decide)]
    exact extract_at lblTone spTone qt ht0 _ (allWs_spec spTone (by decide))
      (rest_head_not_digit fbC2a _ (by decide))
  · unfold extractScore
    rw [hfb,
      extractAux_skip_concrete lblAttribution fbSeg0 _ (by decide),
      extractAux_skip_fmt lblAttribution qo ho0 _ (by decide),
      extractAux_skip_concrete lblAttribution fbC1a _ (by decide),
      extractAux_skip_concrete lblAttribution lblLead _ (by decide),
      extractAux_skip_concrete lblAttribution spLead _ (by decide),
      extractAux_skip_fmt lblAttribution ql hl0 _ (by decide),
      extractAux_skip_concrete lblAttribution fbC2a _ (by decide),
      extractAux_skip_concrete lblAttribution lblStructure _ (by decide),
      extractAux_skip_concrete lblAttribution spStructure _ (by decide),
      extractAux_skip_fmt lblAttribution qs hs0 _ (by decide),
      extractAux_skip_concrete lblAttribution fbC2a _ (by decide),
      extractAux_skip_concrete lblAttribution lblVocabulary _ (by decide),
      extractAux_skip_concrete lblAttribution spVocabulary _ (by decide),
      extractAux_skip_fmt lblAttribution qv hv0 _ (by decide),
      extractAux_skip_concrete lblAttribution fbC2a _ (by decide),
      extractAux_skip_concrete lblAttribution lblTone _ (by decide),
      extractAux_skip_concrete lblAttribution spTone _ (by decide),
      extractAux_skip_fmt lblAttribution qt ht0 _ (by decide),
      extractAux_skip_concrete lblAttribution fbC2a _ (by decide)]
    exact extract_at lblAttribution spAttribution qa ha0 _ (allWs_spec spAttribution (by decide))
      (rest_head_not_digit fbC6 _ (by decide))
  · refine ⟨fbSeg0.data ++ fmtQ 2 qo ++ fbC1a.data,
      "\n  ".data ++ (lblStructure.data ++ (spStructure.data ++ (fmtQ 2 qs ++ (fbC2a.data ++ (lblVocabulary.data ++ (spVocabulary.data ++ (fmtQ 2 qv ++ (fbC2a.data ++ (lblTone.data ++ (spTone.data ++ (fmtQ 2 qt ++ (fbC2a.data ++ (lblAttribution.data ++ (spAttribution.data ++ (fmtQ 2 qa ++ (fbC6.data ++ ((fbTail r).data))))))))))))))))), ?_⟩
    rw [hfb]
    simp [show fbC2a.data = ("/1.00".data ++ "\n  ".data) from rfl,
      show fbC6.data = ("/1.00".data ++ "\n\nSTRENGTHS:\n".data) from rfl,
      List.append_assoc]
  · refine ⟨fbSeg0.data ++ fmtQ 2 qo ++ fbC1a.data ++ lblLead.data ++ spLead.data ++ fmtQ 2 ql ++ fbC2a.data,
      "\n  ".data ++ (lblVocabulary.data ++ (spVocabulary.data ++ (fmtQ 2 qv ++ (fbC2a.data ++ (lblTone.data ++ (spTone.data ++ (fmtQ 2 qt ++ (fbC2a.data ++ (lblAttribution.data ++ (spAttribution.data ++ (fmtQ 2 qa ++ (fbC6.data ++ ((fbTail r).data))))))))))))), ?_⟩
    rw [hfb]
    simp [show fbC2a.data = ("/1.00".data ++ "\n  ".data) from rfl,
      show fbC6.data = ("/1.00".data ++ "\n\nSTRENGTHS:\n".data) from rfl,
      List.append_assoc]
  · refine ⟨fbSeg0.data ++ fmtQ 2 qo ++ fbC1a.data ++ lblLead.data ++ spLead.data ++ fmtQ 2 ql ++ fbC2a.data ++ lblStructure.data ++ spStructure.data ++ fmtQ 2 qs ++ fbC2a.data,
      "\n  ".data ++ (lblTone.data ++ (spTone.data ++ (fmtQ 2 qt ++ (fbC2a.data ++ (lblAttribution.data ++ (spAttribution.data ++ (fmtQ 2 qa ++ (fbC6.data ++ ((fbTail r).data))))))))), ?_⟩
    rw [hfb]
    simp [show fbC2a.data = ("/1.00".data ++ "\n  ".data) from rfl,
      show fbC6.data = ("/1.00".data ++ "\n\nSTRENGTHS:\n".data) from rfl,
      List.append_assoc]
  · refine ⟨fbSeg0.data ++ fmtQ 2 qo ++ fbC1a.data ++ lblLead.data ++ spLead.data ++ fmtQ 2 ql ++ fbC2a.data ++ lblStructure.data ++ spStructure.data ++ fmtQ 2 qs ++ fbC2a.data ++ lblVocabulary.data ++ spVocabulary.data ++ fmtQ 2 qv ++ fbC2a.data,
      "\n  ".data ++ (lblAttribution.data ++ (spAttribution.data ++ (fmtQ 2 qa ++ (fbC6.data ++ ((fbTail r).data))))), ?_⟩
    rw [hfb]
    simp [show fbC2a.data = ("/1.00".data ++ "\n  ".data) from rfl,
      show fbC6.data = ("/1.00".data ++ "\n\nSTRENGTHS:\n".data) from rfl,
      List.append_assoc]
  · refine ⟨fbSeg0.data ++ fmtQ 2 qo ++ fbC1a.data ++ lblLead.data ++ spLead.data ++ fmtQ 2 ql ++ fbC2a.data ++ lblStructure.data ++ spStructure.data ++ fmtQ 2 qs ++ fbC2a.data ++ lblVocabulary.data ++ spVocabulary.data ++ fmtQ 2 qv ++ fbC2a.data ++ lblTone.data ++ spTone.data ++ fmtQ 2 qt ++ fbC2a.data,
      "\n\nSTRENGTHS:\n".data ++ ((fbTail r).data), ?_⟩
    rw [hfb]
    simp [show fbC2a.data = ("/1.00".data ++ "\n  ".data) from rfl,
      show fbC6.data = ("/1.00".data ++ "\n\nSTRENGTHS:\n".data) from rfl,
      List.append_assoc]

/-- A well-behaved concrete rubric response. -/
def rubricGood : RubricResult :=
  { rubricBase with
    overall_score := FloatVal.finite (18/25)
    lead_quality := FloatVal.finite (17/20)
    structure_score := FloatVal.finite (3/4)
    vocabulary_score := FloatVal.finite (9/10)
    tone_score := FloatVal.finite (1/2)
    attribution_score := FloatVal.finite 1 }

/-- Witness for C8 at a concrete rubric response. -/
theorem C8_feedback_contract_witness :
    extractScore lblLead (formatFeedback rubricGood) = some (fmtQS 2 (17/20)) ∧
    extractScore lblStructure (formatFeedback rubricGood) = some (fmtQS 2 (3/4)) ∧
    extractScore lblVocabulary (formatFeedback rubricGood) = some (fmtQS 2 (9/10)) ∧
    extractScore lblTone (formatFeedback rubricGood) = some (fmtQS 2 (1/2)) ∧
    extractScore lblAttribution (formatFeedback rubricGood) = some (fmtQS 2 1) ∧
    (∃ pre post, (formatFeedback rubricGood).data
      = pre ++ (lblLead.data ++ (spLead.data ++ (fmtQ 2 (17/20) ++ "/1.00".data))) ++ post) ∧
    (∃ pre post, (formatFeedback rubricGood).data
      = pre ++ (lblStructure.data ++ (spStructure.data ++ (fmtQ 2 (3/4) ++ "/1.00".data))) ++ post) ∧
    (∃ pre post, (formatFeedback rubricGood).data
      = pre ++ (lblVocabulary.data ++ (spVocabulary.data ++ (fmtQ 2 (9/10) ++ "/1.00".data))) ++ post) ∧
    (∃ pre post, (formatFeedback rubricGood).data
      = pre ++ (lblTone.data ++ (spTone.data ++ (fmtQ 2 (1/2) ++ "/1.00".data))) ++ post) ∧
    (∃ pre post, (formatFeedback rubricGood).data
      = pre ++ (lblAttribution.data ++ (spAttribution.data ++ (fmtQ 2 1 ++ "/1.00".data))) ++ post) :=
  C8_feedback_contract rubricGood (18/25) (17/20) (3/4) (9/10) (1/2) 1
    ⟨rfl, by norm_num, rfl, by norm_num, rfl, by norm_num, rfl, by norm_num, rfl,
      by norm_num, rfl, by norm_num⟩

/-- A rubric response that parses as JSON but carries `lead_quality: NaN`
(Python json accepts the `NaN` literal). -/
def rubricNaN : RubricResult := { rubricBase with lead_quality := FloatVal.nan }

/-- Environment in which the chat model answers with the NaN rubric. -/
def envC8 : ScorerEnv :=
  { tok := wsTok, weightsArchive := none, apiKey := some "key"
    llmResult := some rubricNaN }

unseal Rat.mul Rat.inv Rat.add in
set_option maxRecDepth 100000 in
/-- C8, counterexample.  On a rubric response that parses as JSON but whose
`lead_quality` is `NaN`, the feedback renders the line as
`Lead Quality:    nan/1.00` and the orchestrator regex for that label
matches nothing — the extraction contract fails for a parseable response. -/
theorem C8_counterexample :
    (llm_based_score envC8 "article").2 = formatFeedback rubricNaN ∧
    extractScore lblLead (formatFeedback rubricNaN) = none :=
  ⟨rfl, by decide⟩
